import Mathlib

/-!
Verification of the imaginator request-coordination core against its
natural-language specification.  The Go sources are embedded shallowly:

* `Imagor.Blob`    — src/blob.go (type sniffing, readers, read-seeker wiring)
* `Imagor.Fanout`  — src/fanout/fanout.go (one-producer / many-consumer splitter)
* `Imagor.Ctx`     — src/context.go (request-scoped defers and scratch cache)

Bytes are modelled as `Nat` (Go `byte` values), byte slices as `List Nat`,
and Go errors as explicit `Option`/sum data.
-/

set_option maxRecDepth 4000

namespace Imagor

namespace Blob

/-- `BlobType` from src/blob.go lines 17-28. -/
inductive BlobType
  | unknown
  | empty
  | json
  | jpeg
  | png
  | gif
  | webp
  | avif
  | heif
  | tiff
deriving DecidableEq, Repr

/-- `maxMemorySize = int64(100 << 20)` (src/blob.go line 15). -/
def maxMemorySize : Int := 100 * 2 ^ 20

/-- `jpegHeader = []byte("\xFF\xD8\xFF")` (src/blob.go line 108). -/
def jpegHeader : List Nat := [0xFF, 0xD8, 0xFF]

/-- `gifHeader = []byte("\x47\x49\x46")` (line 109). -/
def gifHeader : List Nat := [0x47, 0x49, 0x46]

/-- `webpHeader = []byte("\x57\x45\x42\x50")` (line 110). -/
def webpHeader : List Nat := [0x57, 0x45, 0x42, 0x50]

/-- `pngHeader = []byte("\x89\x50\x4E\x47")` (line 111). -/
def pngHeader : List Nat := [0x89, 0x50, 0x4E, 0x47]

/-- `ftyp = []byte("ftyp")` (line 114). -/
def ftyp : List Nat := [0x66, 0x74, 0x79, 0x70]

/-- `heic = []byte("heic")` (line 115). -/
def heic : List Nat := [0x68, 0x65, 0x69, 0x63]

/-- `mif1 = []byte("mif1")` (line 116). -/
def mif1 : List Nat := [0x6D, 0x69, 0x66, 0x31]

/-- `msf1 = []byte("msf1")` (line 117). -/
def msf1 : List Nat := [0x6D, 0x73, 0x66, 0x31]

/-- `avif = []byte("avif")` (line 118). -/
def avif : List Nat := [0x61, 0x76, 0x69, 0x66]

/-- `tifII = []byte("\x49\x49\x2A\x00")` (line 120). -/
def tifII : List Nat := [0x49, 0x49, 0x2A, 0x00]

/-- `tifMM = []byte("\x4D\x4D\x00\x2A")` (line 121). -/
def tifMM : List Nat := [0x4D, 0x4D, 0x00, 0x2A]

/-- Go slice expression `buf[lo:hi]`. -/
def slice (buf : List Nat) (lo hi : Nat) : List Nat :=
  (buf.take hi).drop lo

/-- The magic-number classification of `Blob.init` (src/blob.go lines
208-227), applied to the pre-sniff type `bt0` and the peeked prefix `buf`.
The guard `len(b.buf) > 24` and the chain of `bytes.Equal` tests are
transcribed verbatim. -/
def classify (bt0 : BlobType) (buf : List Nat) : BlobType :=
  if bt0 ≠ BlobType.empty ∧ bt0 ≠ BlobType.json ∧ buf.length > 24 then
    if slice buf 0 3 = jpegHeader then BlobType.jpeg
    else if slice buf 0 4 = pngHeader then BlobType.png
    else if slice buf 0 3 = gifHeader then BlobType.gif
    else if slice buf 8 12 = webpHeader then BlobType.webp
    else if slice buf 4 8 = ftyp ∧ slice buf 8 12 = avif then BlobType.avif
    else if slice buf 4 8 = ftyp ∧
        (slice buf 8 12 = heic ∨ slice buf 8 12 = mif1 ∨ slice buf 8 12 = msf1) then
      BlobType.heif
    else if slice buf 0 4 = tifII ∨ slice buf 0 4 = tifMM then BlobType.tiff
    else bt0
  else bt0

/-- Model of the Go standard library `http.DetectContentType` restricted to
the exact-match signatures of its sniffing table that precede the fallback
(BOM entries, icons, and the image formats).  The masked HTML patterns of
the real table require the first non-whitespace byte to be `<` and the
audio/video and font entries require their own distinctive prefixes, so on
the byte strings considered in this development they never match and are
collapsed into the final fallback, which is rendered here as
"application/octet-stream". -/
def detectContentType (data0 : List Nat) : String :=
  let data := data0.take 512
  if data.take 2 = [0xFE, 0xFF] then "text/plain; charset=utf-16be"
  else if data.take 2 = [0xFF, 0xFE] then "text/plain; charset=utf-16le"
  else if data.take 3 = [0xEF, 0xBB, 0xBF] then "text/plain; charset=utf-8"
  else if data.take 4 = [0x00, 0x00, 0x01, 0x00] then "image/x-icon"
  else if data.take 4 = [0x00, 0x00, 0x02, 0x00] then "image/x-icon"
  else if data.take 2 = [0x42, 0x4D] then "image/bmp"
  else if data.take 6 = [0x47, 0x49, 0x46, 0x38, 0x37, 0x61] then "image/gif"
  else if data.take 6 = [0x47, 0x49, 0x46, 0x38, 0x39, 0x61] then "image/gif"
  else if data.take 4 = [0x52, 0x49, 0x46, 0x46] ∧
      slice data 8 14 = [0x57, 0x45, 0x42, 0x50, 0x56, 0x50] then "image/webp"
  else if data.take 8 = [0x89, 0x50, 0x4E, 0x47, 0x0D, 0x0A, 0x1A, 0x0A] then "image/png"
  else if data.take 3 = [0xFF, 0xD8, 0xFF] then "image/jpeg"
  else "application/octet-stream"

/-- The content-type defaulting switch of `Blob.init` (src/blob.go lines
228-249), reached when no explicit content-type override was set. -/
def contentTypeOf (bt : BlobType) (buf : List Nat) : String :=
  match bt with
  | BlobType.json => "application/json"
  | BlobType.jpeg => "image/jpeg"
  | BlobType.png => "image/png"
  | BlobType.gif => "image/gif"
  | BlobType.webp => "image/webp"
  | BlobType.avif => "image/avif"
  | BlobType.heif => "image/heif"
  | BlobType.tiff => "image/tiff"
  | _ => detectContentType buf

/-- Observable state of a `Blob` after `init` ran. -/
structure BlobState where
  buf : List Nat
  blobType : BlobType
  contentType : String
  size : Nat
  err : Option Nat
deriving DecidableEq, Repr

/-- `Blob.init` (src/blob.go lines 149-251) specialized to a blob built by
`NewBlobFromBytes content` (lines 93-102): the opener wraps the bytes in a
`bytes.Reader`, never fails, and reports `size = len(content)`.  The peek
reads `min 512 (len content)` bytes; a zero-length peek marks the blob
Empty; otherwise the magic-number table runs on the peeked prefix, and the
content-type defaults from the resulting type (a fresh blob from bytes has
no content-type override). -/
def initFromBytes (content : List Nat) : BlobState :=
  let buf := content.take 512
  let bt0 := if buf.length = 0 then BlobType.empty else BlobType.unknown
  let bt := classify bt0 buf
  { buf := buf
    blobType := bt
    contentType := contentTypeOf bt buf
    size := content.length
    err := none }

/-- `Blob.BlobType` (src/blob.go lines 263-266) for a bytes-built blob. -/
def blobTypeFromBytes (content : List Nat) : BlobType :=
  (initFromBytes content).blobType

/-- `Blob.ContentType` (lines 286-289) for a bytes-built blob. -/
def contentTypeFromBytes (content : List Nat) : String :=
  (initFromBytes content).contentType

/-- `Blob.SupportsAnimation` (lines 258-261) for a bytes-built blob. -/
def supportsAnimationFromBytes (content : List Nat) : Bool :=
  blobTypeFromBytes content = BlobType.gif ∨ blobTypeFromBytes content = BlobType.webp

/-- `Blob.ReadAll` (src/blob.go lines 318-335) for a bytes-built blob.
An Empty blob returns `(nil, b.err)` at once.  Otherwise `NewReader`
(lines 291-307) hands out the peek reader, whose `bufio.Reader` holds the
peeked prefix over the untouched `bytes.Reader`, so `io.ReadAll` recovers
the entire content with no error. -/
def readAllFromBytes (content : List Nat) : List Nat × Option Nat :=
  let st := initFromBytes content
  if st.blobType = BlobType.empty then ([], st.err)
  else (content, none)

/-- The 12-byte JPEG test vector of the spec scenario:
`FF D8 FF E0 00 10 4A 46 49 46 00 01`. -/
def jpegVector12 : List Nat :=
  [0xFF, 0xD8, 0xFF, 0xE0, 0x00, 0x10, 0x4A, 0x46, 0x49, 0x46, 0x00, 0x01]

/-- A 24-byte vector with bytes `[4..8) = "ftyp"` and `[8..12) = "avif"`. -/
def avifVector24 : List Nat :=
  [0x00, 0x00, 0x00, 0x18] ++ ftyp ++ avif ++
    [0x00, 0x00, 0x00, 0x00, 0x00, 0x00, 0x00, 0x00, 0x00, 0x00, 0x00, 0x00]

/-- Which read-seeker factory `Blob.init` ends up installing. -/
inductive SeekerWiring
  | native
  | fanoutBuf
deriving DecidableEq, Repr

/-- The read-seeker wiring decided by `Blob.init` (src/blob.go lines
149-192), abstracted over the facts init consults:
`constructErr` — an error latched at construction (`b.err != nil`, line 151);
`hasNewReader` — whether an opener exists (line 154; a missing opener turns
the blob Empty and leaves `newReadSeeker` nil);
`openerErr`/`readerNil` — the `err`/`reader` results of the first opener
call (lines 159-165);
`readerSeekable` — whether that reader satisfies `io.ReadSeekCloser`
(lines 167-174);
`fanout`, `size` — the fan-out flag and declared size in the guard
`b.fanout && size > 0 && size < maxMemorySize && err == nil` (line 175),
under which a missing native seeker is simulated from the fan-out buffer
(lines 186-191). -/
def initSeekerWiring (constructErr hasNewReader openerErr readerNil
    readerSeekable fanout : Bool) (size : Int) : Option SeekerWiring :=
  if constructErr then none
  else if ¬ hasNewReader then none
  else if readerNil then none
  else if readerSeekable then some SeekerWiring.native
  else if fanout ∧ size > 0 ∧ size < maxMemorySize ∧ ¬ openerErr then
    some SeekerWiring.fanoutBuf
  else none

/-- Outcome of `Blob.NewReadSeeker`. -/
inductive SeekerResult
  | methodNotAllowed
  | openerError
  | ok (w : SeekerWiring)
deriving DecidableEq, Repr

/-- `Blob.NewReadSeeker` (src/blob.go lines 310-316): with no installed
factory it fails with `ErrMethodNotAllowed`; the native factory re-runs the
opener and hence surfaces an opener error; the fan-out factory reads from
the shared buffer and succeeds. -/
def newReadSeeker (constructErr hasNewReader openerErr readerNil
    readerSeekable fanout : Bool) (size : Int) : SeekerResult :=
  match initSeekerWiring constructErr hasNewReader openerErr readerNil
      readerSeekable fanout size with
  | none => SeekerResult.methodNotAllowed
  | some SeekerWiring.native =>
      if openerErr then SeekerResult.openerError
      else SeekerResult.ok SeekerWiring.native
  | some SeekerWiring.fanoutBuf => SeekerResult.ok SeekerWiring.fanoutBuf

end Blob

namespace Ctx

/-- `imagorContextRef` (src/context.go lines 11-15): the append-only list of
deferred functions (identified by numbers) and the `sync.Map` scratch cache
(an association list with overwriting store). -/
structure ContextRef where
  funcs : List Nat
  cache : List (Nat × Nat)
deriving DecidableEq, Repr

/-- The fresh ref allocated by `WithContext` (line 34). -/
def emptyRef : ContextRef := { funcs := [], cache := [] }

/-- `imagorContextRef.Defer` (lines 17-21): append under the lock. -/
def refDefer (r : ContextRef) (fn : Nat) : ContextRef :=
  { r with funcs := r.funcs ++ [fn] }

/-- `imagorContextRef.Call` (lines 23-30): invoke every deferred function in
list order, then reset the list to nil.  The first component records the
invocation order. -/
def refCall (r : ContextRef) : List Nat × ContextRef :=
  (r.funcs, { r with funcs := [] })

/-- `sync.Map.Store`. -/
def mapStore (c : List (Nat × Nat)) (k v : Nat) : List (Nat × Nat) :=
  match c with
  | [] => [(k, v)]
  | (k', v') :: rest => if k' = k then (k, v) :: rest else (k', v') :: mapStore rest k v

/-- `sync.Map.Load`: returns `(value, ok)`. -/
def mapLoad (c : List (Nat × Nat)) (k : Nat) : Option Nat × Bool :=
  match c with
  | [] => (none, false)
  | (k', v') :: rest => if k' = k then (some v', true) else mapLoad rest k

/-- A Go `context.Context`, modelled by the value it carries under
`imagorContextKey`: `none` when no imagor request scope is attached. -/
abbrev Context := Option ContextRef

/-- `WithContext` (src/context.go lines 33-41): attaches a fresh ref; the
spawned watcher goroutine runs `refCall` once the scope ends. -/
def withContext (_parent : Context) : Context := some emptyRef

/-- `Defer` (lines 51-53) through `mustContextValue` (lines 43-48), which
panics with "not imagor context" when no ref is attached. -/
def ctxDefer (ctx : Context) (fn : Nat) : Except String Context :=
  match ctx with
  | none => Except.error "not imagor context"
  | some r => Except.ok (some (refDefer r fn))

/-- `ContextCachePut` (lines 56-60): a silent no-op without a ref. -/
def contextCachePut (ctx : Context) (k v : Nat) : Context :=
  match ctx with
  | none => none
  | some r => some { r with cache := mapStore r.cache k v }

/-- `ContextCacheGet` (lines 63-68): `(nil, false)` without a ref. -/
def contextCacheGet (ctx : Context) (k : Nat) : Option Nat × Bool :=
  match ctx with
  | none => (none, false)
  | some r => mapLoad r.cache k

/-- Scope end (`<-ctx.Done()` in the watcher, line 37): fires `refCall`. -/
def scopeEnd (ctx : Context) : List Nat × Context :=
  match ctx with
  | none => ([], none)
  | some r => ((refCall r).1, some (refCall r).2)

/-- Register a list of deferred functions in order through `Defer`. -/
def deferAll (ctx : Context) (ds : List Nat) : Context :=
  ds.foldl
    (fun c d =>
      match ctxDefer c d with
      | Except.ok c' => c'
      | Except.error _ => c)
    ctx

end Ctx

namespace Fanout

/-- Signal returned by a source `Read` alongside its bytes: `ok` (nil
error), `eof` (`io.EOF`), or a non-EOF failure identified by a code. -/
inductive SrcSig
  | ok
  | eof
  | fail (code : Nat)
deriving DecidableEq, Repr

/-- Errors a consumer `Read` can return: `io.EOF`, `io.ErrClosedPipe`, or
the latched source error. -/
inductive RErr
  | eof
  | closedPipe
  | latched (code : Nat)
deriving DecidableEq, Repr

/-- One `Reader` of `Fanout` (src/fanout/fanout.go lines 20-28).
`replay` is what remains of `r.bufReader` (the registration-time snapshot
of the shared buffer), `rcurrent` is `r.current`, `rbuf` is the partially
consumed chunk `r.buf`, `queue` holds the chunks sitting in `r.channel`,
and the two flags are `channelClosed` / `readerClosed`.  `cap` records the
buffer capacity `r.channel` was allocated with, and `consumed` is a history
variable: the concatenation of all bytes this reader's `Read` calls have
returned so far (it mirrors no Go field and influences no step). -/
structure FReader where
  replay : List Nat
  rcurrent : Nat
  rbuf : List Nat
  queue : List (List Nat)
  channelClosed : Bool
  readerClosed : Bool
  cap : Nat
  consumed : List Nat
deriving DecidableEq, Repr

/-- The shared `Fanout` state (src/fanout/fanout.go lines 9-18): declared
`size`, write cursor `current`, the delivered bytes `buf[:current]`, the
latched error, the registered readers, and whether the producer goroutine
has returned. -/
structure FanoutSt where
  size : Nat
  current : Nat
  buf : List Nat
  err : Option Nat
  readers : List FReader
  prodDone : Bool
deriving DecidableEq, Repr

/-- A fan-out system together with the part of the source the producer has
not read yet.  Each source element is one `Read` result; once the list is
exhausted further reads return `(nil, io.EOF)`. -/
structure Sys where
  fan : FanoutSt
  src : List (List Nat × SrcSig)
deriving DecidableEq, Repr

/-- Bytes of an entire source, in order. -/
def flattenSrc (src : List (List Nat × SrcSig)) : List Nat :=
  (src.map Prod.fst).flatten

/-- A well-behaved `io.Reader` source: once it reports `io.EOF` it offers
no further reads.  (Reads after a non-EOF failure are unconstrained; the
producer never performs them.) -/
def wfSrc : List (List Nat × SrcSig) → Bool
  | [] => true
  | (_, SrcSig.eof) :: rest => rest.isEmpty
  | (_, _) :: rest => wfSrc rest

/-- `New` (src/fanout/fanout.go lines 30-36) with the producer goroutine
not yet started and the whole source pending. -/
def initSys (src : List (List Nat × SrcSig)) (size : Nat) : Sys :=
  { fan := { size := size, current := 0, buf := [], err := none,
             readers := [], prodDone := false }
    src := src }

/-- The error-latch assignment of the producer loop (src/fanout/fanout.go
lines 60-71): a non-EOF source error is stored, everything else leaves the
latched error unchanged. -/
def errAfter (sig : SrcSig) (e : Option Nat) : Option Nat :=
  match sig with
  | SrcSig.fail code => some code
  | _ => e

/-- Whether the producer's mapped read error is non-nil after the EOF
translation (`e != nil` on line 82): only a non-EOF failure remains. -/
def isFail (sig : SrcSig) : Bool :=
  match sig with
  | SrcSig.fail _ => true
  | _ => false

/-- One iteration of the producer loop `Fanout.readAll` (src/fanout/fanout.go
lines 44-86): read the next source chunk into `buf[current:]` (so at most
`size - current` bytes land), advance the cursor, map `io.EOF` to nil and
tighten `size` on a bare EOF, latch any other error, broadcast the
just-written slice to every reader whose channel is not closed (the
registered-readers snapshot is taken in the same critical section as the
cursor update), and stop on error or once the cursor reaches `size`.
A finished producer leaves the state unchanged. -/
def prodStep (s : Sys) : Sys :=
  if s.fan.prodDone then s
  else
    let rr := match s.src with
      | [] => (([], SrcSig.eof), ([] : List (List Nat × SrcSig)))
      | x :: xs => (x, xs)
    let chunk := rr.1.1
    let sig := rr.1.2
    let n := min chunk.length (s.fan.size - s.fan.current)
    let bn := chunk.take n
    let current' := s.fan.current + n
    let size' := if sig = SrcSig.eof ∧ n = 0 then current' else s.fan.size
    let err' := errAfter sig s.fan.err
    let readers' := s.fan.readers.map fun rd =>
      if rd.channelClosed then rd else { rd with queue := rd.queue ++ [bn] }
    let done' := isFail sig || decide (size' ≤ current')
    { fan := { size := size', current := current', buf := s.fan.buf ++ bn,
               err := err', readers := readers', prodDone := done' }
      src := rr.2 }

/-- `Fanout.NewReader` (src/fanout/fanout.go lines 88-99): the new reader
gets a channel of capacity `f.size/4096+1`, snapshots the delivered bytes
into its `bufReader`, starts its cursor at `f.current`, and is appended to
the reader list. -/
def registerStep (s : Sys) : Sys :=
  let rd : FReader := {
    replay := s.fan.buf
    rcurrent := s.fan.current
    rbuf := []
    queue := []
    channelClosed := false
    readerClosed := false
    cap := s.fan.size / 4096 + 1
    consumed := [] }
  { s with fan := { s.fan with readers := s.fan.readers ++ [rd] } }

/-- Replace reader `i`. -/
def setReader (s : Sys) (i : Nat) (rd : FReader) : Sys :=
  { s with fan := { s.fan with readers := s.fan.readers.set i rd } }

/-- `Reader.close` (src/fanout/fanout.go lines 150-162): store the
`closeReader` argument into `readerClosed`, close the channel unless it
already is closed, and return the latched error.  `Reader.Close`
(lines 164-166) calls it with `true`. -/
def closeStep (s : Sys) (i : Nat) (cr : Bool) : Sys × Option Nat :=
  match s.fan.readers.get? i with
  | none => (s, none)
  | some rd =>
      (setReader s i { rd with readerClosed := cr, channelClosed := true },
       s.fan.err)

/-- What one `Read` call hands back: the bytes written into `p` and the
returned error. -/
structure ReadOut where
  bytes : List Nat
  err : Option RErr
deriving DecidableEq, Repr

/-- The dequeue-and-copy cycle of `Reader.Read` (src/fanout/fanout.go lines
133-146), entered with the call's snapshots satisfying `err = nil`,
`channelClosed = false` and `rcurrent < size`; those snapshots are taken
once per call (lines 116-120), so after a first chunk is consumed only
this cycle can run again.  `m = len(p)` and `acc` is what the call wrote
into `p` so far.  If `r.buf` is empty a chunk is received from the channel
(`none` models a call that blocks on an empty channel); `copy` moves
`min (m - len acc) (len r.buf)` bytes; a zero-byte copy returns; and when
the cursor reaches `size` the reader performs `close(false)` and returns.
The first argument after `sz` is fuel making the recursion structural:
every cycle back to the top consumes at least one destination byte, so
`m + 1` units (what `readLoop` supplies) are never exhausted. -/
def copyChunks (sz : Nat) : Nat → Nat → FReader → List Nat →
    Option (FReader × ReadOut)
  | 0, _, _, _ => none
  | fuel + 1, m, rd, acc =>
    let rd1opt : Option FReader :=
      match rd.rbuf, rd.queue with
      | [], [] => none
      | [], q :: qs => some { rd with rbuf := q, queue := qs }
      | _ :: _, _ => some rd
    match rd1opt with
    | none => none
    | some rd1 =>
      if min (m - acc.length) rd1.rbuf.length = 0 then
        some (rd1, ⟨acc, none⟩)
      else
        if sz ≤ rd1.rcurrent + min (m - acc.length) rd1.rbuf.length then
          some ({ rd1 with
                    rbuf := rd1.rbuf.drop (min (m - acc.length) rd1.rbuf.length)
                    rcurrent := rd1.rcurrent + min (m - acc.length) rd1.rbuf.length
                    channelClosed := true
                    readerClosed := false },
                ⟨acc ++ rd1.rbuf.take (min (m - acc.length) rd1.rbuf.length), none⟩)
        else
          copyChunks sz fuel m
            { rd1 with
                rbuf := rd1.rbuf.drop (min (m - acc.length) rd1.rbuf.length)
                rcurrent := rd1.rcurrent + min (m - acc.length) rd1.rbuf.length }
            (acc ++ rd1.rbuf.take (min (m - acc.length) rd1.rbuf.length))

/-- The channel phase of `Reader.Read` (src/fanout/fanout.go lines
116-147), reached when the replay snapshot is exhausted: take the `err`,
`size` and `channelClosed` snapshots, then run the loop.  Its first checks
return `io.EOF` once the cursor reached `size`, `io.ErrClosedPipe` for a
closed channel, and the latched error — performing `close(true)` — when
one is set; only then are chunks consumed. -/
def readLoop (e : Option Nat) (sz : Nat) (closed : Bool) (m : Nat)
    (rd : FReader) : Option (FReader × ReadOut) :=
  if sz ≤ rd.rcurrent then some (rd, ⟨[], some RErr.eof⟩)
  else if closed then some (rd, ⟨[], some RErr.closedPipe⟩)
  else
    match e with
    | some c =>
        some ({ rd with readerClosed := true, channelClosed := true },
          ⟨[], some (RErr.latched c)⟩)
    | none => copyChunks sz (m + 1) m rd []

/-- One `Reader.Read` call (src/fanout/fanout.go lines 101-148) on reader
`i` with a destination buffer of length `m`.  A closed reader fails with
`io.ErrClosedPipe` at once; otherwise the `bufReader` replay is served
first (its `io.EOF` is swallowed and the call falls through to the channel
phase).  `none` models a call that blocks (or a reader index that does not
exist).  The returned bytes are appended to the `consumed` history. -/
def readStep (s : Sys) (i : Nat) (m : Nat) : Option (Sys × ReadOut) :=
  match s.fan.readers.get? i with
  | none => none
  | some rd =>
    if rd.readerClosed then some (s, ⟨[], some RErr.closedPipe⟩)
    else
      match rd.replay with
      | [] =>
        match readLoop s.fan.err s.fan.size rd.channelClosed m rd with
        | none => none
        | some (rd', out) =>
          some (setReader s i { rd' with consumed := rd'.consumed ++ out.bytes },
            out)
      | b :: bs =>
        some (setReader s i
          { rd with
              replay := (b :: bs).drop (min m (b :: bs).length)
              consumed := rd.consumed ++ (b :: bs).take (min m (b :: bs).length) },
          ⟨(b :: bs).take (min m (b :: bs).length), none⟩)

/-- Interleaving events: a producer iteration, a consumer registration, a
consumer `Close`, or a consumer `Read` with a buffer of length `m`. -/
inductive Ev
  | prod
  | register
  | close (i : Nat)
  | read (i : Nat) (m : Nat)
deriving DecidableEq, Repr

/-- Apply one event.  `none` when the event cannot run to completion. -/
def step (s : Sys) : Ev → Option Sys
  | Ev.prod => some (prodStep s)
  | Ev.register => some (registerStep s)
  | Ev.close i => some (closeStep s i true).1
  | Ev.read i m => (readStep s i m).map Prod.fst

/-- Run a list of events. -/
def run (s : Sys) : List Ev → Option Sys
  | [] => some s
  | ev :: evs => (step s ev).bind fun s' => run s' evs

/-- Per-reader invariant against the shared fan-out state: the reader's
cursor counts its returned bytes plus its pending replay; while its
channel is open, what it returned followed by what is still pending for it
(replay, partial chunk, queued chunks) is exactly the delivered buffer;
and a channel closed other than by `Close` (i.e. with `readerClosed`
still false) marks a reader that already consumed the complete, final
buffer. -/
def ReaderInv (f : FanoutSt) (rd : FReader) : Prop :=
  rd.rcurrent = rd.consumed.length + rd.replay.length ∧
  (rd.channelClosed = false →
    rd.consumed ++ (rd.replay ++ (rd.rbuf ++ rd.queue.flatten)) = f.buf) ∧
  (rd.channelClosed = true →
    rd.readerClosed = true ∨
      (rd.consumed = f.buf ∧ f.current = f.size ∧ rd.replay = [] ∧
        f.size ≤ rd.rcurrent))

/-- Global invariant of a fan-out built over source `orig` with declared
size `declared`: the delivered buffer is the length-`current` prefix of
the source bytes, the cursor never passes `size`, `size` only shrinks from
`declared` by end-of-stream tightening (in which case, for a well-behaved
source, the buffer already holds everything the source offers), a running
producer has delivered exactly the consumed source reads, and every
reader satisfies `ReaderInv`. -/
def SysInv (orig : List (List Nat × SrcSig)) (declared : Nat) (s : Sys) : Prop :=
  s.fan.buf.length = s.fan.current ∧
  s.fan.current ≤ s.fan.size ∧
  s.fan.size ≤ declared ∧
  s.fan.buf = (flattenSrc orig).take s.fan.current ∧
  (∃ done, orig = done ++ s.src ∧
    (s.fan.prodDone = false → s.fan.buf = flattenSrc done)) ∧
  (s.fan.size = declared ∨
    (s.fan.size = s.fan.current ∧
      (wfSrc orig = true → s.fan.buf = flattenSrc orig))) ∧
  ∀ rd ∈ s.fan.readers, ReaderInv s.fan rd

/-- Two systems that agree everywhere except possibly on reader `i`. -/
def AgreeExcept (i : Nat) (s t : Sys) : Prop :=
  s.fan.size = t.fan.size ∧ s.fan.current = t.fan.current ∧
  s.fan.buf = t.fan.buf ∧ s.fan.err = t.fan.err ∧
  s.fan.prodDone = t.fan.prodDone ∧ s.src = t.src ∧
  s.fan.readers.length = t.fan.readers.length ∧
  ∀ j, j ≠ i → s.fan.readers.get? j = t.fan.readers.get? j

/-- Events that do not act on reader `i`. -/
def AvoidsReader (i : Nat) : Ev → Bool
  | Ev.prod => true
  | Ev.register => true
  | Ev.close j => decide (j ≠ i)
  | Ev.read j _ => decide (j ≠ i)

/-- What a completed `copyChunks` run guarantees, relative to the reader
state `rd` it started from: no error; replay, history, capacity untouched;
the bytes appended to `acc` moved off the front of the reader's pending
chunks while the cursor advanced by exactly their count; and the flags are
either untouched with the cursor still short of `sz`, or the reader
performed `close(false)` on reaching `sz`. -/
def CopyOutcome (sz : Nat) (rd : FReader) (acc : List Nat)
    (rd' : FReader) (out : ReadOut) : Prop :=
  out.err = none ∧
  rd'.replay = rd.replay ∧ rd'.consumed = rd.consumed ∧ rd'.cap = rd.cap ∧
  (∃ d, out.bytes = acc ++ d ∧
    d ++ (rd'.rbuf ++ rd'.queue.flatten) = rd.rbuf ++ rd.queue.flatten ∧
    rd'.rcurrent = rd.rcurrent + d.length) ∧
  ((rd'.channelClosed = rd.channelClosed ∧ rd'.readerClosed = rd.readerClosed ∧
      rd'.rcurrent < sz) ∨
    (rd'.channelClosed = true ∧ rd'.readerClosed = false ∧ sz ≤ rd'.rcurrent))

end Fanout

/-!
## Theorems

General lemmas first, then one theorem per claim of the specification
(with counterexamples and witnesses where applicable).
-/

namespace Blob

theorem slice_take512 (content : List Nat) (lo hi : Nat) (h : hi ≤ 512) :
    slice (content.take 512) lo hi = slice content lo hi := by
  unfold slice
  rw [List.take_take, min_eq_left h]

theorem slice_zero_eq_take (content : List Nat) (hi : Nat) :
    slice content 0 hi = content.take hi := by
  unfold slice
  rw [List.drop_zero]

theorem blobTypeFromBytes_eq_classify (content : List Nat)
    (h0 : content.length ≠ 0) :
    blobTypeFromBytes content =
      classify BlobType.unknown (content.take 512) := by
  show classify (if (content.take 512).length = 0 then BlobType.empty
    else BlobType.unknown) (content.take 512) = _
  rw [if_neg (by rw [List.length_take]; omega)]

theorem contentTypeFromBytes_eq (content : List Nat) :
    contentTypeFromBytes content =
      contentTypeOf (blobTypeFromBytes content) (content.take 512) := rfl

theorem blobTypeFromBytes_jpeg (content : List Nat)
    (h24 : 24 < content.length) (h3 : content.take 3 = jpegHeader) :
    blobTypeFromBytes content = BlobType.jpeg := by
  rw [blobTypeFromBytes_eq_classify content (by omega)]
  unfold classify
  rw [if_pos ⟨by decide, by decide, by rw [List.length_take]; omega⟩,
    if_pos (by rw [slice_take512 _ _ _ (by omega), slice_zero_eq_take]; exact h3)]

theorem classify_ne_empty (bt0 : BlobType) (buf : List Nat)
    (h : bt0 ≠ BlobType.empty) : classify bt0 buf ≠ BlobType.empty := by
  unfold classify
  split_ifs <;> simp [h]

end Blob

namespace Ctx

theorem deferAll_some (r : ContextRef) (ds : List Nat) :
    deferAll (some r) ds = some { r with funcs := r.funcs ++ ds } := by
  induction ds generalizing r with
  | nil => simp [deferAll]
  | cons d ds ih =>
      have h1 : deferAll (some r) (d :: ds) = deferAll (some (refDefer r d)) ds := rfl
      rw [h1, ih]
      simp [refDefer]

end Ctx

namespace Fanout

theorem wfSrc_suffix (xs ys : List (List Nat × SrcSig))
    (h : wfSrc (xs ++ ys) = true) : wfSrc ys = true := by
  induction xs with
  | nil => exact h
  | cons x xs ih =>
      obtain ⟨c, sig⟩ := x
      cases sig with
      | ok => exact ih h
      | fail code => exact ih h
      | eof =>
          have h' : xs ++ ys = [] := by
            simpa [wfSrc, List.isEmpty_iff] using h
          rcases List.append_eq_nil.mp h' with ⟨-, rfl⟩
          rfl

theorem copyChunks_spec_aux (sz fuel m : Nat)
    (ih : ∀ (m : Nat) (rd : FReader) (acc : List Nat) (rd' : FReader)
      (out : ReadOut), copyChunks sz fuel m rd acc = some (rd', out) →
      rd.rcurrent < sz → CopyOutcome sz rd acc rd' out)
    (rd1 : FReader) (acc : List Nat) (rd' : FReader) (out : ReadOut)
    (h : (if min (m - acc.length) rd1.rbuf.length = 0 then
        some (rd1, ⟨acc, none⟩)
      else
        if sz ≤ rd1.rcurrent + min (m - acc.length) rd1.rbuf.length then
          some ({ rd1 with
                    rbuf := rd1.rbuf.drop (min (m - acc.length) rd1.rbuf.length)
                    rcurrent := rd1.rcurrent +
                      min (m - acc.length) rd1.rbuf.length
                    channelClosed := true
                    readerClosed := false },
                ⟨acc ++ rd1.rbuf.take (min (m - acc.length) rd1.rbuf.length),
                  none⟩)
        else
          copyChunks sz fuel m
            { rd1 with
                rbuf := rd1.rbuf.drop (min (m - acc.length) rd1.rbuf.length)
                rcurrent := rd1.rcurrent +
                  min (m - acc.length) rd1.rbuf.length }
            (acc ++ rd1.rbuf.take (min (m - acc.length) rd1.rbuf.length)))
      = some (rd', out))
    (hlt : rd1.rcurrent < sz) : CopyOutcome sz rd1 acc rd' out := by
  split_ifs at h with h0 hcl
  · simp only [Option.some.injEq, Prod.mk.injEq] at h
    obtain ⟨h1, h2⟩ := h
    subst h1
    subst h2
    exact ⟨rfl, rfl, rfl, rfl, ⟨[], by simp, by simp, by simp⟩,
      Or.inl ⟨rfl, rfl, hlt⟩⟩
  · simp only [Option.some.injEq, Prod.mk.injEq] at h
    obtain ⟨h1, h2⟩ := h
    subst h1
    subst h2
    refine ⟨rfl, rfl, rfl, rfl,
      ⟨rd1.rbuf.take (min (m - acc.length) rd1.rbuf.length), rfl, ?_, ?_⟩,
      Or.inr ⟨rfl, rfl, hcl⟩⟩
    · rw [← List.append_assoc, List.take_append_drop]
    · dsimp only
      rw [List.length_take]
      omega
  · have hlt2 : ({ rd1 with
        rbuf := rd1.rbuf.drop (min (m - acc.length) rd1.rbuf.length)
        rcurrent := rd1.rcurrent +
          min (m - acc.length) rd1.rbuf.length } : FReader).rcurrent < sz := by
      simp only
      omega
    obtain ⟨herr, hrep, hcons, hcap, ⟨d2, hb, hchain, hrc⟩, hflags⟩ :=
      ih _ _ _ _ _ h hlt2
    refine ⟨herr, hrep, hcons, hcap,
      ⟨rd1.rbuf.take (min (m - acc.length) rd1.rbuf.length) ++ d2, ?_, ?_, ?_⟩,
      ?_⟩
    · rw [hb, List.append_assoc]
    · rw [List.append_assoc, hchain]
      show _ ++ (List.drop _ _ ++ _) = _
      rw [← List.append_assoc, List.take_append_drop]
    · rw [hrc]
      simp only [List.length_append, List.length_take]
      omega
    · exact hflags

theorem copyChunks_spec (sz : Nat) (fuel : Nat) :
    ∀ (m : Nat) (rd : FReader) (acc : List Nat) (rd' : FReader) (out : ReadOut),
    copyChunks sz fuel m rd acc = some (rd', out) →
    rd.rcurrent < sz → CopyOutcome sz rd acc rd' out := by
  induction fuel with
  | zero =>
      intro m rd acc rd' out h
      exact absurd h (by simp [copyChunks])
  | succ fuel ih =>
      intro m rd acc rd' out h hlt
      rcases hrb : rd.rbuf with _ | ⟨b, bs⟩ <;>
        simp only [copyChunks, hrb] at h
      · rcases hq : rd.queue with _ | ⟨q, qs⟩ <;> simp only [hq] at h
        · exact absurd h (by simp)
        · have hout := copyChunks_spec_aux sz fuel m ih
            { rd with rbuf := q, queue := qs } acc rd' out h
            (by simpa using hlt)
          obtain ⟨herr, hrep, hcons, hcap, ⟨d, hb, hchain, hrc⟩, hflags⟩ := hout
          exact ⟨herr, hrep, hcons, hcap,
            ⟨d, hb, by rw [hrb, hq]; simpa using hchain, by simpa using hrc⟩,
            by simpa using hflags⟩
      · rw [← hrb] at h
        exact copyChunks_spec_aux sz fuel m ih rd acc rd' out h hlt

theorem readLoop_cases (e : Option Nat) (sz : Nat) (closed : Bool) (m : Nat)
    (rd rd' : FReader) (out : ReadOut)
    (h : readLoop e sz closed m rd = some (rd', out)) :
    (sz ≤ rd.rcurrent ∧ rd' = rd ∧ out = ⟨[], some RErr.eof⟩) ∨
    (rd.rcurrent < sz ∧ closed = true ∧ rd' = rd ∧
      out = ⟨[], some RErr.closedPipe⟩) ∨
    (∃ c, rd.rcurrent < sz ∧ closed = false ∧ e = some c ∧
      rd' = { rd with readerClosed := true, channelClosed := true } ∧
      out = ⟨[], some (RErr.latched c)⟩) ∨
    (rd.rcurrent < sz ∧ closed = false ∧ e = none ∧
      copyChunks sz (m + 1) m rd [] = some (rd', out)) := by
  unfold readLoop at h
  split_ifs at h with h1 h2
  · simp only [Option.some.injEq, Prod.mk.injEq] at h
    exact Or.inl ⟨h1, h.1.symm, h.2.symm⟩
  · simp only [Option.some.injEq, Prod.mk.injEq] at h
    exact Or.inr (Or.inl ⟨by omega, h2, h.1.symm, h.2.symm⟩)
  · rcases e with _ | c
    · exact Or.inr (Or.inr (Or.inr
        ⟨by omega, by simpa using h2, rfl, h⟩))
    · simp only [Option.some.injEq, Prod.mk.injEq] at h
      exact Or.inr (Or.inr (Or.inl
        ⟨c, by omega, by simpa using h2, rfl, h.1.symm, h.2.symm⟩))

theorem flattenSrc_append (xs ys : List (List Nat × SrcSig)) :
    flattenSrc (xs ++ ys) = flattenSrc xs ++ flattenSrc ys := by
  simp [flattenSrc]

theorem flattenSrc_cons (c : List Nat) (sig : SrcSig)
    (rest : List (List Nat × SrcSig)) :
    flattenSrc ((c, sig) :: rest) = c ++ flattenSrc rest := by
  simp [flattenSrc]

theorem prodStep_eq_cons (s : Sys) (c : List Nat) (sig : SrcSig)
    (rest : List (List Nat × SrcSig))
    (hnd : s.fan.prodDone = false) (hsrc : s.src = (c, sig) :: rest) :
    prodStep s =
      { fan := { size := if sig = SrcSig.eof ∧
                    min c.length (s.fan.size - s.fan.current) = 0 then
                    s.fan.current + min c.length (s.fan.size - s.fan.current)
                  else s.fan.size
                 current := s.fan.current +
                   min c.length (s.fan.size - s.fan.current)
                 buf := s.fan.buf ++
                   c.take (min c.length (s.fan.size - s.fan.current))
                 err := errAfter sig s.fan.err
                 readers := s.fan.readers.map fun rd =>
                   if rd.channelClosed then rd
                   else { rd with queue := rd.queue ++
                     [c.take (min c.length (s.fan.size - s.fan.current))] }
                 prodDone :=
                   isFail sig ||
                     decide ((if sig = SrcSig.eof ∧
                         min c.length (s.fan.size - s.fan.current) = 0 then
                         s.fan.current +
                           min c.length (s.fan.size - s.fan.current)
                       else s.fan.size) ≤
                       s.fan.current +
                         min c.length (s.fan.size - s.fan.current)) }
        src := rest } := by
  unfold prodStep
  rw [if_neg (by simp [hnd])]
  simp only [hsrc]

theorem prodStep_eq_nil (s : Sys)
    (hnd : s.fan.prodDone = false) (hsrc : s.src = []) :
    prodStep s =
      { fan := { size := if SrcSig.eof = SrcSig.eof ∧
                    min (List.length ([] : List Nat))
                      (s.fan.size - s.fan.current) = 0 then
                    s.fan.current + min (List.length ([] : List Nat))
                      (s.fan.size - s.fan.current)
                  else s.fan.size
                 current := s.fan.current + min (List.length ([] : List Nat))
                   (s.fan.size - s.fan.current)
                 buf := s.fan.buf ++ ([] : List Nat).take
                   (min (List.length ([] : List Nat))
                     (s.fan.size - s.fan.current))
                 err := s.fan.err
                 readers := s.fan.readers.map fun rd =>
                   if rd.channelClosed then rd
                   else { rd with queue := rd.queue ++
                     [([] : List Nat).take (min (List.length ([] : List Nat))
                       (s.fan.size - s.fan.current))] }
                 prodDone :=
                   false || decide ((if SrcSig.eof = SrcSig.eof ∧
                       min (List.length ([] : List Nat))
                         (s.fan.size - s.fan.current) = 0 then
                       s.fan.current + min (List.length ([] : List Nat))
                         (s.fan.size - s.fan.current)
                     else s.fan.size) ≤
                     s.fan.current + min (List.length ([] : List Nat))
                       (s.fan.size - s.fan.current)) }
        src := [] } := by
  unfold prodStep
  rw [if_neg (by simp [hnd])]
  simp only [hsrc]
  rfl

theorem readerInv_broadcast (f f' : FanoutSt) (rd : FReader) (bn : List Nat)
    (hInv : ReaderInv f rd)
    (hbuf' : f'.buf = f.buf ++ bn)
    (hsz' : f'.size = f.size ∨ f'.size = f'.current)
    (hfreeze : f.current = f.size →
      bn = [] ∧ f'.current = f.current ∧ f'.size = f.size) :
    ReaderInv f'
      (if rd.channelClosed then rd
        else { rd with queue := rd.queue ++ [bn] }) := by
  obtain ⟨hB, hA, hC⟩ := hInv
  by_cases hcc : rd.channelClosed = true
  · rw [if_pos (by simp [hcc])]
    refine ⟨hB, fun hfalse => absurd hcc (by simp [hfalse]), fun _ => ?_⟩
    rcases hC hcc with hclosed | ⟨hcons, hcs, hrep, hsz⟩
    · exact Or.inl hclosed
    · obtain ⟨hbn, hcur', hszeq⟩ := hfreeze hcs
      refine Or.inr ⟨by rw [hbuf', hbn, List.append_nil]; exact hcons,
        by rw [hcur', hszeq, hcs], hrep, by rw [hszeq]; exact hsz⟩
  · rw [if_neg hcc]
    have hccf : rd.channelClosed = false := by simpa using hcc
    refine ⟨hB, fun _ => ?_, fun hfalse => absurd (by simpa using hfalse) hcc⟩
    show rd.consumed ++ (rd.replay ++ (rd.rbuf ++ (rd.queue ++ [bn]).flatten))
      = f'.buf
    rw [hbuf', ← hA hccf]
    simp

theorem sysInv_prodAux (orig : List (List Nat × SrcSig)) (declared : Nat)
    (s : Sys) (c : List Nat) (sig : SrcSig)
    (rest : List (List Nat × SrcSig)) (done : List (List Nat × SrcSig))
    (hlen : s.fan.buf.length = s.fan.current)
    (hcs : s.fan.current ≤ s.fan.size)
    (hsd : s.fan.size ≤ declared)
    (hbuf : s.fan.buf = (flattenSrc orig).take s.fan.current)
    (hbufdone : s.fan.buf = flattenSrc done)
    (hT : s.fan.size = declared ∨
      (s.fan.size = s.fan.current ∧
        (wfSrc orig = true → s.fan.buf = flattenSrc orig)))
    (hreaders : ∀ rd ∈ s.fan.readers, ReaderInv s.fan rd)
    (hflat : flattenSrc orig = flattenSrc done ++ (c ++ flattenSrc rest))
    (hdone2 : ∃ done2, orig = done2 ++ rest ∧
      flattenSrc done2 = flattenSrc done ++ c)
    (hwfrest : wfSrc orig = true → sig = SrcSig.eof → flattenSrc rest = [])
    (heq : prodStep s =
      { fan := { size := if sig = SrcSig.eof ∧
                    min c.length (s.fan.size - s.fan.current) = 0 then
                    s.fan.current + min c.length (s.fan.size - s.fan.current)
                  else s.fan.size
                 current := s.fan.current +
                   min c.length (s.fan.size - s.fan.current)
                 buf := s.fan.buf ++
                   c.take (min c.length (s.fan.size - s.fan.current))
                 err := errAfter sig s.fan.err
                 readers := s.fan.readers.map fun rd =>
                   if rd.channelClosed then rd
                   else { rd with queue := rd.queue ++
                     [c.take (min c.length (s.fan.size - s.fan.current))] }
                 prodDone :=
                   isFail sig ||
                     decide ((if sig = SrcSig.eof ∧
                         min c.length (s.fan.size - s.fan.current) = 0 then
                         s.fan.current +
                           min c.length (s.fan.size - s.fan.current)
                       else s.fan.size) ≤
                       s.fan.current +
                         min c.length (s.fan.size - s.fan.current)) }
        src := rest }) :
    SysInv orig declared (prodStep s) := by
  rw [heq]
  have hnlec : min c.length (s.fan.size - s.fan.current) ≤ c.length :=
    min_le_left _ _
  have hnlesc : min c.length (s.fan.size - s.fan.current) ≤
      s.fan.size - s.fan.current := min_le_right _ _
  have hbnlen : (c.take (min c.length (s.fan.size - s.fan.current))).length
      = min c.length (s.fan.size - s.fan.current) := by
    rw [List.length_take]
    omega
  have hbuf4 : s.fan.buf ++
      c.take (min c.length (s.fan.size - s.fan.current)) =
      (flattenSrc orig).take (s.fan.current +
        min c.length (s.fan.size - s.fan.current)) := by
    rw [hflat, hbufdone]
    have hld : (flattenSrc done).length = s.fan.current := by
      rw [← hbufdone]; exact hlen
    rw [List.take_append_eq_append_take]
    have ha : (flattenSrc done).take (s.fan.current +
        min c.length (s.fan.size - s.fan.current)) = flattenSrc done :=
      List.take_of_length_le (by omega)
    rw [ha, hld]
    have hb : s.fan.current + min c.length (s.fan.size - s.fan.current) -
        s.fan.current = min c.length (s.fan.size - s.fan.current) := by omega
    rw [hb, List.take_append_eq_append_take]
    have hc2 : min c.length (s.fan.size - s.fan.current) - c.length = 0 := by
      omega
    rw [hc2, List.take_zero, List.append_nil]
  refine ⟨?_, ?_, ?_, ?_, ?_, ?_, ?_⟩
  · simp only [List.length_append, hlen, hbnlen]
  · dsimp only
    split_ifs <;> omega
  · dsimp only
    split_ifs <;> omega
  · dsimp only
    exact hbuf4
  · obtain ⟨done2, hod, hfd⟩ := hdone2
    refine ⟨done2, hod, fun hrun => ?_⟩
    dsimp only at hrun ⊢
    rw [hbufdone, hfd]
    by_cases hfull : min c.length (s.fan.size - s.fan.current) = c.length
    · rw [hfull, List.take_length]
    · exfalso
      have hn : min c.length (s.fan.size - s.fan.current) =
          s.fan.size - s.fan.current := by omega
      rw [hn] at hrun
      rcases sig with _ | _ | code <;> simp [isFail] at hrun
      · omega
      · split_ifs at hrun <;> omega
  · dsimp only
    by_cases htight : sig = SrcSig.eof ∧
        min c.length (s.fan.size - s.fan.current) = 0
    · rw [if_pos htight]
      rcases hT with hTd | ⟨hTeq, hTw⟩
      · by_cases hksz : s.fan.size = s.fan.current
        · left
          have := htight.2
          omega
        · -- current < size, so min = 0 forces c = []
          right
          refine ⟨rfl, fun hwf => ?_⟩
          have hcz : c = [] := by
            rcases c with _ | ⟨a, l⟩
            · rfl
            · exfalso
              have := htight.2
              have hlc : 0 < (a :: l).length := by simp
              omega
          have hr := hwfrest hwf htight.1
          rw [htight.2, List.take_zero, List.append_nil, hflat, hcz, hr,
            List.append_nil, List.append_nil, hbufdone]
      · right
        refine ⟨rfl, fun hwf => ?_⟩
        rw [htight.2, List.take_zero, List.append_nil]
        exact hTw hwf
    · rw [if_neg htight]
      rcases hT with hTd | ⟨hTeq, hTw⟩
      · exact Or.inl hTd
      · right
        have hn0 : min c.length (s.fan.size - s.fan.current) = 0 := by omega
        refine ⟨by omega, fun hwf => ?_⟩
        rw [hn0, List.take_zero, List.append_nil]
        exact hTw hwf
  · intro rd' hrd'
    rw [List.mem_map] at hrd'
    obtain ⟨rd, hrd, hmap⟩ := hrd'
    rw [← hmap]
    refine readerInv_broadcast s.fan _ rd _ (hreaders rd hrd) rfl ?_ ?_
    · dsimp only
      split_ifs <;> [right; left] <;> rfl
    · intro hfz
      have hn0 : min c.length (s.fan.size - s.fan.current) = 0 := by omega
      refine ⟨by rw [hn0]; rfl, by dsimp only; omega, ?_⟩
      dsimp only
      split_ifs with hsplit
      · omega
      · rfl

theorem sysInv_prod (orig : List (List Nat × SrcSig)) (declared : Nat)
    (s : Sys) (hInv : SysInv orig declared s) :
    SysInv orig declared (prodStep s) := by
  obtain ⟨hlen, hcs, hsd, hbuf, ⟨done, hdone, hrunning⟩, hT, hreaders⟩ := hInv
  by_cases hnd : s.fan.prodDone = true
  · have hps : prodStep s = s := by
      unfold prodStep
      rw [if_pos (by simp [hnd])]
    rw [hps]
    exact ⟨hlen, hcs, hsd, hbuf, ⟨done, hdone, hrunning⟩, hT, hreaders⟩
  · have hndf : s.fan.prodDone = false := by simpa using hnd
    have hbufdone := hrunning hndf
    rcases hsrc : s.src with _ | ⟨⟨c, sig⟩, rest⟩
    · have horig : orig = done := by rw [hdone, hsrc, List.append_nil]
      refine sysInv_prodAux orig declared s [] SrcSig.eof [] done hlen hcs hsd
        hbuf hbufdone hT hreaders ?_ ?_ ?_ (prodStep_eq_nil s hndf hsrc)
      · rw [horig]
        show flattenSrc done = flattenSrc done ++ ([] ++ flattenSrc [])
        exact (List.append_nil _).symm
      · exact ⟨orig, by simp, by rw [horig]; exact (List.append_nil _).symm⟩
      · intro _ _
        rfl
    · have horig : orig = done ++ (c, sig) :: rest := by rw [hdone, hsrc]
      refine sysInv_prodAux orig declared s c sig rest done hlen hcs hsd
        hbuf hbufdone hT hreaders ?_ ?_ ?_
        (prodStep_eq_cons s c sig rest hndf hsrc)
      · rw [horig, flattenSrc_append, flattenSrc_cons]
      · refine ⟨done ++ [(c, sig)], by rw [horig]; simp, ?_⟩
        rw [flattenSrc_append]
        simp [flattenSrc]
      · intro hwf hsig
        have hwfs : wfSrc ((c, sig) :: rest) = true :=
          wfSrc_suffix done ((c, sig) :: rest) (by rw [← horig]; exact hwf)
        subst hsig
        have hrest : rest = [] := by
          simpa [wfSrc, List.isEmpty_iff] using hwfs
        rw [hrest]
        rfl

theorem sysInv_register (orig : List (List Nat × SrcSig)) (declared : Nat)
    (s : Sys) (hInv : SysInv orig declared s) :
    SysInv orig declared (registerStep s) := by
  obtain ⟨hlen, hcs, hsd, hbuf, ⟨done, hdone, hrunning⟩, hT, hreaders⟩ := hInv
  refine ⟨hlen, hcs, hsd, hbuf, ⟨done, hdone, hrunning⟩, hT, ?_⟩
  intro rd hrd
  rw [show (registerStep s).fan.readers = s.fan.readers ++
    [{ replay := s.fan.buf, rcurrent := s.fan.current, rbuf := [], queue := [],
       channelClosed := false, readerClosed := false,
       cap := s.fan.size / 4096 + 1, consumed := [] }] from rfl,
    List.mem_append] at hrd
  rcases hrd with hold | hnew
  · exact hreaders rd hold
  · rw [List.mem_singleton] at hnew
    subst hnew
    refine ⟨by simpa using hlen.symm, fun _ => by simp [registerStep],
      fun hfalse => ?_⟩
    simp at hfalse

theorem sysInv_close (orig : List (List Nat × SrcSig)) (declared : Nat)
    (s : Sys) (i : Nat) (hInv : SysInv orig declared s) :
    SysInv orig declared (closeStep s i true).1 := by
  obtain ⟨hlen, hcs, hsd, hbuf, ⟨done, hdone, hrunning⟩, hT, hreaders⟩ := hInv
  unfold closeStep
  rcases hrd : s.fan.readers.get? i with _ | rd
  · exact ⟨hlen, hcs, hsd, hbuf, ⟨done, hdone, hrunning⟩, hT, hreaders⟩
  · refine ⟨hlen, hcs, hsd, hbuf, ⟨done, hdone, hrunning⟩, hT, ?_⟩
    intro rd2 hrd2
    dsimp only [setReader] at hrd2
    rcases List.mem_or_eq_of_mem_set hrd2 with hold | hnew
    · exact hreaders rd2 hold
    · subst hnew
      have hinv := hreaders rd (List.get?_mem hrd)
      exact ⟨hinv.1, fun hfalse => by simp at hfalse, fun _ => Or.inl rfl⟩

theorem readStep_cases (s : Sys) (i m : Nat) (s' : Sys) (out : ReadOut)
    (h : readStep s i m = some (s', out)) :
    ∃ rd, s.fan.readers.get? i = some rd ∧
    ((rd.readerClosed = true ∧ s' = s ∧ out = ⟨[], some RErr.closedPipe⟩) ∨
      (rd.readerClosed = false ∧ rd.replay ≠ [] ∧
        out = ⟨rd.replay.take (min m rd.replay.length), none⟩ ∧
        s' = setReader s i
          { rd with
              replay := rd.replay.drop (min m rd.replay.length)
              consumed := rd.consumed ++
                rd.replay.take (min m rd.replay.length) }) ∨
      (rd.readerClosed = false ∧ rd.replay = [] ∧
        ∃ rd2, readLoop s.fan.err s.fan.size rd.channelClosed m rd
            = some (rd2, out) ∧
          s' = setReader s i
            { rd2 with consumed := rd2.consumed ++ out.bytes })) := by
  unfold readStep at h
  rcases hrd : s.fan.readers.get? i with _ | rd <;> simp only [hrd] at h
  · exact absurd h (by simp)
  · refine ⟨rd, rfl, ?_⟩
    by_cases hc : rd.readerClosed = true
    · rw [if_pos hc] at h
      simp only [Option.some.injEq, Prod.mk.injEq] at h
      exact Or.inl ⟨hc, h.1.symm, h.2.symm⟩
    · rw [if_neg hc] at h
      rcases hrep : rd.replay with _ | ⟨b, bs⟩ <;> rw [hrep] at h
      · rcases hloop : readLoop s.fan.err s.fan.size rd.channelClosed m rd
          with _ | ⟨rd2, out2⟩ <;> rw [hloop] at h
        · exact absurd h (by simp)
        · simp only [Option.some.injEq, Prod.mk.injEq] at h
          obtain ⟨h1, h2⟩ := h
          subst h2
          exact Or.inr (Or.inr ⟨by simpa using hc, rfl, rd2, rfl, h1.symm⟩)
      · simp only [Option.some.injEq, Prod.mk.injEq] at h
        exact Or.inr (Or.inl ⟨by simpa using hc, by simp, h.2.symm, h.1.symm⟩)

theorem append_eq_of_length_le (a b c : List Nat) (h : a ++ b = c)
    (hl : c.length ≤ a.length) : a = c ∧ b = [] := by
  have hlen : a.length + b.length = c.length := by
    rw [← h]
    simp
  have hb : b = [] := List.eq_nil_of_length_eq_zero (by omega)
  subst hb
  rw [List.append_nil] at h
  exact ⟨h, rfl⟩

theorem sysInv_read (orig : List (List Nat × SrcSig)) (declared : Nat)
    (s : Sys) (i m : Nat) (s' : Sys) (out : ReadOut)
    (h : readStep s i m = some (s', out))
    (hInv : SysInv orig declared s) : SysInv orig declared s' := by
  obtain ⟨hlen, hcs, hsd, hbuf, hdone, hT, hreaders⟩ := hInv
  obtain ⟨rd, hrd, hcase⟩ := readStep_cases s i m s' out h
  have hrdinv := hreaders rd (List.get?_mem hrd)
  rcases hcase with ⟨hrc, rfl, rfl⟩ | ⟨hrc, hrep, houts, rfl⟩ |
    ⟨hrc, hrep, rd2, hloop, rfl⟩
  · exact ⟨hlen, hcs, hsd, hbuf, hdone, hT, hreaders⟩
  · refine ⟨hlen, hcs, hsd, hbuf, hdone, hT, ?_⟩
    intro rd3 hrd3
    dsimp only [setReader] at hrd3
    rcases List.mem_or_eq_of_mem_set hrd3 with hold | hnew
    · exact hreaders rd3 hold
    · subst hnew
      obtain ⟨hB, hA, hC⟩ := hrdinv
      refine ⟨?_, ?_, ?_⟩
      · dsimp only
        rw [List.length_append, List.length_take, List.length_drop]
        omega
      · intro hcc
        dsimp only at hcc ⊢
        rw [List.append_assoc,
          ← List.append_assoc (rd.replay.take (min m rd.replay.length)),
          List.take_append_drop]
        exact hA hcc
      · intro hcc
        dsimp only at hcc
        rcases hC hcc with hl | ⟨_, _, hrnil, _⟩
        · rw [hrc] at hl
          exact absurd hl (by simp)
        · exact absurd hrnil hrep
  · refine ⟨hlen, hcs, hsd, hbuf, hdone, hT, ?_⟩
    intro rd3 hrd3
    dsimp only [setReader] at hrd3
    rcases List.mem_or_eq_of_mem_set hrd3 with hold | hnew
    · exact hreaders rd3 hold
    · subst hnew
      obtain ⟨hB, hA, hC⟩ := hrdinv
      rcases readLoop_cases _ _ _ _ _ _ _ hloop with
        ⟨hsz, heq2, hout⟩ | ⟨hlt, hC2, heq2, hout⟩ |
        ⟨code, hlt, hC2, herr2, heq2, hout⟩ | ⟨hlt, hclosedF, herrN, hcopy⟩
      · subst heq2
        subst hout
        have heq : ({ rd2 with consumed := rd2.consumed ++
            (⟨[], some RErr.eof⟩ : ReadOut).bytes } : FReader) = rd2 := by
          simp
        rw [heq]
        exact ⟨hB, hA, hC⟩
      · subst heq2
        subst hout
        have heq : ({ rd2 with consumed := rd2.consumed ++
            (⟨[], some RErr.closedPipe⟩ : ReadOut).bytes } : FReader) = rd2 := by
          simp
        rw [heq]
        exact ⟨hB, hA, hC⟩
      · subst heq2
        subst hout
        refine ⟨by simpa using hB, fun hf => by simp at hf, fun _ => Or.inl rfl⟩
      · have hccF : rd.channelClosed = false := hclosedF
        obtain ⟨hoerr, hrep2, hcons2, hcap2, ⟨d, hbytes, hchain, hrcur⟩,
          hflags⟩ := copyChunks_spec s.fan.size (m + 1) m rd [] rd2 out
            hcopy hlt
        have hAold : rd.consumed ++ (rd.rbuf ++ rd.queue.flatten)
            = s.fan.buf := by
          have := hA hccF
          rw [hrep] at this
          simpa using this
        have hbd : out.bytes = d := by simpa using hbytes
        refine ⟨?_, ?_, ?_⟩
        · dsimp only
          rw [List.length_append, hcons2, hrcur, hrep2, hrep]
          rw [hB, hrep, hbd]
          simp
        · intro hcc
          dsimp only at hcc ⊢
          rw [hcons2, hbd, hrep2, hrep, List.nil_append, List.append_assoc,
            hchain]
          exact hAold
        · intro hcc
          dsimp only at hcc
          rcases hflags with ⟨hceq, _, _⟩ | ⟨hctrue, hrcF, hszle⟩
          · rw [hcc, hccF] at hceq
            exact absurd hceq (by simp)
          · right
            have hctot : (rd2.consumed ++ out.bytes) ++
                (rd2.rbuf ++ rd2.queue.flatten) = s.fan.buf := by
              rw [hcons2, hbd, List.append_assoc, hchain]
              exact hAold
            have hlensq : s.fan.buf.length ≤
                (rd2.consumed ++ out.bytes).length := by
              rw [List.length_append, hcons2, hbd, hlen]
              have : rd2.rcurrent = rd.rcurrent + d.length := hrcur
              have hBr : rd.rcurrent = rd.consumed.length := by
                rw [hB, hrep]
                simp
              omega
            obtain ⟨hconsbuf, -⟩ := append_eq_of_length_le _ _ _ hctot hlensq
            have hcursz : s.fan.current = s.fan.size := by
              have h1 : (rd2.consumed ++ out.bytes).length
                  = s.fan.buf.length := by rw [hconsbuf]
              rw [List.length_append, hcons2, hbd, hlen] at h1
              have hBr : rd.rcurrent = rd.consumed.length := by
                rw [hB, hrep]
                simp
              omega
            exact ⟨by dsimp only; exact hconsbuf, hcursz,
              by dsimp only; rw [hrep2, hrep],
              by dsimp only [setReader]; omega⟩

theorem prodStep_readers_shape (s : Sys) :
    (prodStep s).fan.readers = s.fan.readers ∨
    ∃ bn, (prodStep s).fan.readers = s.fan.readers.map fun rd =>
      if rd.channelClosed then rd
      else { rd with queue := rd.queue ++ [bn] } := by
  by_cases hnd : s.fan.prodDone = true
  · left
    unfold prodStep
    rw [if_pos (by simp [hnd])]
  · have hnds : s.fan.prodDone = false := by simpa using hnd
    rcases hsrc : s.src with _ | ⟨⟨c, sig⟩, rest⟩
    · right
      rw [prodStep_eq_nil s hnds hsrc]
      exact ⟨_, rfl⟩
    · right
      rw [prodStep_eq_cons s c sig rest hnds hsrc]
      exact ⟨_, rfl⟩

theorem readerClosed_step (s s' : Sys) (ev : Ev) (i : Nat) (rd : FReader)
    (h : step s ev = some s') (hrd : s.fan.readers.get? i = some rd)
    (hc : rd.readerClosed = true) :
    ∃ rd', s'.fan.readers.get? i = some rd' ∧ rd'.readerClosed = true := by
  cases ev with
  | prod =>
      obtain rfl : prodStep s = s' := by simpa [step] using h
      rcases prodStep_readers_shape s with hsh | ⟨bn, hsh⟩
      · exact ⟨rd, by rw [hsh]; exact hrd, hc⟩
      · refine ⟨if rd.channelClosed then rd
          else { rd with queue := rd.queue ++ [bn] }, ?_, ?_⟩
        · rw [hsh, List.get?_map, hrd]
          rfl
        · split_ifs
          · exact hc
          · exact hc
  | register =>
      obtain rfl : registerStep s = s' := by simpa [step] using h
      have hilt : i < s.fan.readers.length :=
        (List.get?_eq_some.mp hrd).choose
      refine ⟨rd, ?_, hc⟩
      show (s.fan.readers ++ [_]).get? i = some rd
      rw [List.get?_append hilt]
      exact hrd
  | close j =>
      obtain rfl : (closeStep s j true).1 = s' := by simpa [step] using h
      unfold closeStep
      rcases hrdj : s.fan.readers.get? j with _ | rdj
      · exact ⟨rd, hrd, hc⟩
      · dsimp only [setReader]
        by_cases hji : i = j
        · subst hji
          have hrdeq : rdj = rd := Option.some.inj (hrdj.symm.trans hrd)
          subst hrdeq
          have hilt : i < s.fan.readers.length :=
            (List.get?_eq_some.mp hrd).choose
          exact ⟨_, List.get?_set_eq_of_lt _ hilt, rfl⟩
        · refine ⟨rd, ?_, hc⟩
          rw [List.get?_set_ne _ _ (Ne.symm hji)]
          exact hrd
  | read j m =>
      simp only [step, Option.map_eq_some'] at h
      obtain ⟨⟨s2, out⟩, hread, rfl⟩ := h
      obtain ⟨rdj, hrdj, hcase⟩ := readStep_cases s j m s2 out hread
      by_cases hji : i = j
      · subst hji
        have hrdeq : rdj = rd := Option.some.inj (hrdj.symm.trans hrd)
        subst hrdeq
        rcases hcase with ⟨-, rfl, -⟩ | ⟨hrc, -, -, -⟩ | ⟨hrc, -, -, -, -⟩
        · exact ⟨rdj, hrd, hc⟩
        · rw [hc] at hrc
          exact absurd hrc (by simp)
        · rw [hc] at hrc
          exact absurd hrc (by simp)
      · rcases hcase with ⟨-, rfl, -⟩ | ⟨-, -, -, rfl⟩ | ⟨-, -, rd2, -, rfl⟩
        · exact ⟨rd, hrd, hc⟩
        · refine ⟨rd, ?_, hc⟩
          dsimp only [setReader]
          rw [List.get?_set_ne _ _ (Ne.symm hji)]
          exact hrd
        · refine ⟨rd, ?_, hc⟩
          dsimp only [setReader]
          rw [List.get?_set_ne _ _ (Ne.symm hji)]
          exact hrd

theorem readerClosed_run :
    ∀ (evs : List Ev) (s s' : Sys), run s evs = some s' →
    ∀ (i : Nat) (rd : FReader), s.fan.readers.get? i = some rd →
    rd.readerClosed = true →
    ∃ rd', s'.fan.readers.get? i = some rd' ∧ rd'.readerClosed = true := by
  intro evs
  induction evs with
  | nil =>
      intro s s' h i rd hrd hc
      obtain rfl : s = s' := by simpa [run] using h
      exact ⟨rd, hrd, hc⟩
  | cons ev evs ih =>
      intro s s' h i rd hrd hc
      simp only [run, Option.bind_eq_some] at h
      obtain ⟨s2, hstep, hrun⟩ := h
      obtain ⟨rd2, hrd2, hc2⟩ := readerClosed_step s s2 ev i rd hstep hrd hc
      exact ih s2 s' hrun i rd2 hrd2 hc2

theorem readStep_of_closed (s : Sys) (i m : Nat) (rd : FReader)
    (hrd : s.fan.readers.get? i = some rd) (hc : rd.readerClosed = true) :
    readStep s i m = some (s, ⟨[], some RErr.closedPipe⟩) := by
  unfold readStep
  simp only [hrd]
  rw [if_pos hc]

theorem closeStep_state (s : Sys) (i : Nat) (rd : FReader)
    (hrd : s.fan.readers.get? i = some rd) :
    ∃ rd', (closeStep s i true).1.fan.readers.get? i = some rd' ∧
      rd'.readerClosed = true := by
  unfold closeStep
  rw [hrd]
  dsimp only [setReader]
  have hilt : i < s.fan.readers.length := (List.get?_eq_some.mp hrd).choose
  exact ⟨_, List.get?_set_eq_of_lt _ hilt, rfl⟩

theorem closeStep_idem (s : Sys) (i : Nat) :
    closeStep (closeStep s i true).1 i true = closeStep s i true := by
  rcases hrd : s.fan.readers.get? i with _ | rd
  · unfold closeStep
    rw [hrd]
    rw [hrd]
  · have hilt : i < s.fan.readers.length := (List.get?_eq_some.mp hrd).choose
    unfold closeStep
    rw [hrd]
    dsimp only [setReader]
    rw [List.get?_set_eq_of_lt _ hilt]
    dsimp only
    rw [List.set_set]

theorem agree_closeSelf (i : Nat) (s : Sys) :
    AgreeExcept i s (closeStep s i true).1 := by
  unfold closeStep
  rcases hrd : s.fan.readers.get? i with _ | rd
  · exact ⟨rfl, rfl, rfl, rfl, rfl, rfl, rfl, fun j _ => rfl⟩
  · dsimp only [setReader]
    refine ⟨rfl, rfl, rfl, rfl, rfl, rfl, by simp, ?_⟩
    intro j hj
    rw [List.get?_set_ne _ _ (Ne.symm hj)]

theorem agree_prodStep (i : Nat) (s t : Sys) (h : AgreeExcept i s t) :
    AgreeExcept i (prodStep s) (prodStep t) := by
  obtain ⟨h1, h2, h3, h4, h5, h6, h7, h8⟩ := h
  by_cases hnd : s.fan.prodDone = true
  · have hndt : t.fan.prodDone = true := by rw [← h5]; exact hnd
    have es : prodStep s = s := by
      unfold prodStep
      rw [if_pos (by simp [hnd])]
    have et : prodStep t = t := by
      unfold prodStep
      rw [if_pos (by simp [hndt])]
    rw [es, et]
    exact ⟨h1, h2, h3, h4, h5, h6, h7, h8⟩
  · have hnds : s.fan.prodDone = false := by simpa using hnd
    have hndt : t.fan.prodDone = false := by rw [← h5]; exact hnds
    rcases hsrc : s.src with _ | ⟨⟨c, sig⟩, rest⟩
    · have hsrct : t.src = [] := by rw [← h6]; exact hsrc
      rw [prodStep_eq_nil s hnds hsrc, prodStep_eq_nil t hndt hsrct]
      refine ⟨by dsimp only; rw [h1, h2], by dsimp only; rw [h1, h2],
        by dsimp only; rw [h3, h1, h2], by dsimp only; rw [h4],
        by dsimp only; rw [h1, h2], rfl, by simp [h7], ?_⟩
      intro j hj
      dsimp only
      simp only [List.get?_map, h8 j hj, h1, h2]
    · have hsrct : t.src = (c, sig) :: rest := by rw [← h6]; exact hsrc
      rw [prodStep_eq_cons s c sig rest hnds hsrc,
        prodStep_eq_cons t c sig rest hndt hsrct]
      refine ⟨by dsimp only; rw [h1, h2], by dsimp only; rw [h1, h2],
        by dsimp only; rw [h3, h1, h2], by dsimp only; rw [h4],
        by dsimp only; rw [h1, h2], rfl, by simp [h7], ?_⟩
      intro j hj
      dsimp only
      simp only [List.get?_map, h8 j hj, h1, h2]

theorem agree_registerStep (i : Nat) (s t : Sys) (h : AgreeExcept i s t) :
    AgreeExcept i (registerStep s) (registerStep t) := by
  obtain ⟨h1, h2, h3, h4, h5, h6, h7, h8⟩ := h
  unfold registerStep
  refine ⟨h1, h2, h3, h4, h5, h6, by simp [h7], ?_⟩
  intro j hj
  dsimp only
  by_cases hjl : j < s.fan.readers.length
  · rw [List.get?_append hjl, List.get?_append (by rw [← h7]; exact hjl)]
    exact h8 j hj
  · have hge : s.fan.readers.length ≤ j := by omega
    rw [List.get?_append_right hge, List.get?_append_right (by omega)]
    rw [h7, h1, h2, h3]

theorem agree_closeStep (i j : Nat) (s t : Sys) (hj : j ≠ i)
    (h : AgreeExcept i s t) :
    AgreeExcept i (closeStep s j true).1 (closeStep t j true).1 ∧
    (closeStep s j true).2 = (closeStep t j true).2 := by
  obtain ⟨h1, h2, h3, h4, h5, h6, h7, h8⟩ := h
  unfold closeStep
  rw [← h8 j hj]
  rcases hrd : s.fan.readers.get? j with _ | rd
  · dsimp only
    exact ⟨⟨h1, h2, h3, h4, h5, h6, h7, h8⟩, rfl⟩
  · dsimp only [setReader]
    refine ⟨⟨h1, h2, h3, h4, h5, h6, by simp [h7], ?_⟩, h4⟩
    intro j2 hj2
    by_cases hj2j : j2 = j
    · subst hj2j
      have hlt : j2 < s.fan.readers.length := (List.get?_eq_some.mp hrd).choose
      rw [List.get?_set_eq_of_lt _ hlt,
        List.get?_set_eq_of_lt _ (by rw [← h7]; exact hlt)]
    · rw [List.get?_set_ne _ _ (Ne.symm hj2j),
        List.get?_set_ne _ _ (Ne.symm hj2j)]
      exact h8 j2 hj2

theorem agree_setReader (i j : Nat) (s t : Sys) (rd : FReader) (hj : j ≠ i)
    (h : AgreeExcept i s t) :
    AgreeExcept i (setReader s j rd) (setReader t j rd) := by
  obtain ⟨h1, h2, h3, h4, h5, h6, h7, h8⟩ := h
  dsimp only [setReader]
  refine ⟨h1, h2, h3, h4, h5, h6, by simp [h7], ?_⟩
  intro j2 hj2
  by_cases hj2j : j2 = j
  · subst hj2j
    rcases Nat.lt_or_ge j2 s.fan.readers.length with hlt | hge
    · rw [List.get?_set_eq_of_lt _ hlt,
        List.get?_set_eq_of_lt _ (by rw [← h7]; exact hlt)]
    · rw [List.set_eq_of_length_le (by omega),
        List.set_eq_of_length_le (by rw [← h7]; omega)]
      exact h8 j2 hj2
  · rw [List.get?_set_ne _ _ (Ne.symm hj2j),
      List.get?_set_ne _ _ (Ne.symm hj2j)]
    exact h8 j2 hj2

theorem agree_readStep (i j m : Nat) (s t : Sys) (hj : j ≠ i)
    (h : AgreeExcept i s t) (s2 t2 : Sys) (out1 out2 : ReadOut)
    (hs : readStep s j m = some (s2, out1))
    (ht : readStep t j m = some (t2, out2)) :
    out1 = out2 ∧ AgreeExcept i s2 t2 := by
  have h8j := h.2.2.2.2.2.2.2 j hj
  have h1 := h.1
  have h4 := h.2.2.2.1
  unfold readStep at hs ht
  rw [← h8j] at ht
  rcases hrd : s.fan.readers.get? j with _ | rd <;> rw [hrd] at hs ht
  · simp at hs
  · simp only at hs ht
    by_cases hc : rd.readerClosed = true
    · rw [if_pos hc] at hs ht
      simp only [Option.some.injEq, Prod.mk.injEq] at hs ht
      obtain ⟨rfl, rfl⟩ := hs
      obtain ⟨rfl, rfl⟩ := ht
      exact ⟨rfl, h⟩
    · rw [if_neg hc] at hs ht
      rcases hrep : rd.replay with _ | ⟨b, bs⟩ <;> rw [hrep] at hs ht
      · rw [← h1, ← h4] at ht
        rcases hloop : readLoop s.fan.err s.fan.size rd.channelClosed m rd
          with _ | ⟨rd2, outl⟩ <;> rw [hloop] at hs ht
        · simp at hs
        · simp only [Option.some.injEq, Prod.mk.injEq] at hs ht
          obtain ⟨rfl, rfl⟩ := hs
          obtain ⟨rfl, rfl⟩ := ht
          exact ⟨rfl, agree_setReader i j s t _ hj h⟩
      · simp only [Option.some.injEq, Prod.mk.injEq] at hs ht
        obtain ⟨rfl, rfl⟩ := hs
        obtain ⟨rfl, rfl⟩ := ht
        exact ⟨rfl, agree_setReader i j s t _ hj h⟩

theorem agree_step (i : Nat) (ev : Ev) (s t s2 t2 : Sys)
    (hav : AvoidsReader i ev = true) (h : AgreeExcept i s t)
    (hs : step s ev = some s2) (ht : step t ev = some t2) :
    AgreeExcept i s2 t2 := by
  cases ev with
  | prod =>
      obtain rfl : prodStep s = s2 := by simpa [step] using hs
      obtain rfl : prodStep t = t2 := by simpa [step] using ht
      exact agree_prodStep i s t h
  | register =>
      obtain rfl : registerStep s = s2 := by simpa [step] using hs
      obtain rfl : registerStep t = t2 := by simpa [step] using ht
      exact agree_registerStep i s t h
  | close j =>
      have hj : j ≠ i := by simpa [AvoidsReader] using hav
      obtain rfl : (closeStep s j true).1 = s2 := by simpa [step] using hs
      obtain rfl : (closeStep t j true).1 = t2 := by simpa [step] using ht
      exact (agree_closeStep i j s t hj h).1
  | read j m =>
      have hj : j ≠ i := by simpa [AvoidsReader] using hav
      simp only [step, Option.map_eq_some'] at hs ht
      obtain ⟨⟨s3, out1⟩, hreads, rfl⟩ := hs
      obtain ⟨⟨t3, out2⟩, hreadt, rfl⟩ := ht
      exact (agree_readStep i j m s t hj h s3 t3 out1 out2 hreads hreadt).2

theorem agree_run (i : Nat) :
    ∀ (evs : List Ev) (s t s' t' : Sys),
    (∀ ev ∈ evs, AvoidsReader i ev = true) → AgreeExcept i s t →
    run s evs = some s' → run t evs = some t' → AgreeExcept i s' t' := by
  intro evs
  induction evs with
  | nil =>
      intro s t s' t' _ h hs ht
      obtain rfl : s = s' := by simpa [run] using hs
      obtain rfl : t = t' := by simpa [run] using ht
      exact h
  | cons ev evs ih =>
      intro s t s' t' hav h hs ht
      simp only [run, Option.bind_eq_some] at hs ht
      obtain ⟨s2, hstep_s, hrun_s⟩ := hs
      obtain ⟨t2, hstep_t, hrun_t⟩ := ht
      exact ih s2 t2 s' t' (fun ev hev => hav ev (List.mem_cons_of_mem _ hev))
        (agree_step i ev s t s2 t2 (hav ev (List.mem_cons_self _ _)) h
          hstep_s hstep_t)
        hrun_s hrun_t

theorem sysInv_step (orig : List (List Nat × SrcSig)) (declared : Nat)
    (s s' : Sys) (ev : Ev) (h : step s ev = some s')
    (hInv : SysInv orig declared s) : SysInv orig declared s' := by
  cases ev with
  | prod =>
      obtain rfl : prodStep s = s' := by simpa [step] using h
      exact sysInv_prod orig declared s hInv
  | register =>
      obtain rfl : registerStep s = s' := by simpa [step] using h
      exact sysInv_register orig declared s hInv
  | close i =>
      obtain rfl : (closeStep s i true).1 = s' := by simpa [step] using h
      exact sysInv_close orig declared s i hInv
  | read i m =>
      simp only [step, Option.map_eq_some'] at h
      obtain ⟨⟨s2, out⟩, hread, rfl⟩ := h
      exact sysInv_read orig declared s i m s2 out hread hInv

theorem sysInv_run (orig : List (List Nat × SrcSig)) (declared : Nat) :
    ∀ (evs : List Ev) (s s' : Sys), run s evs = some s' →
    SysInv orig declared s → SysInv orig declared s' := by
  intro evs
  induction evs with
  | nil =>
      intro s s' h hInv
      obtain rfl : s = s' := by simpa [run] using h
      exact hInv
  | cons ev evs ih =>
      intro s s' h hInv
      simp only [run, Option.bind_eq_some] at h
      obtain ⟨s2, hstep, hrun⟩ := h
      exact ih s2 s' hrun (sysInv_step orig declared s s2 ev hstep hInv)

theorem sysInv_init (src : List (List Nat × SrcSig)) (declared : Nat) :
    SysInv src declared (initSys src declared) := by
  refine ⟨rfl, by simp [initSys], le_refl _, by simp [initSys],
    ⟨[], by simp [initSys], fun _ => rfl⟩, Or.inl rfl, ?_⟩
  intro rd hrd
  simp [initSys] at hrd

end Fanout

/-- C1.  The spec scenario expects `BlobType = JPEG` for a blob whose
entire content is the 12-byte JPEG prefix, but `Blob.init` runs the
magic-number table only when more than 24 bytes were sniffed, so the type
stays Unknown; only the MIME fallback still reports "image/jpeg". -/
theorem claim1_jpeg_sniff_counterexample :
    Blob.jpegVector12.length = 12 ∧
    ¬ (Blob.blobTypeFromBytes Blob.jpegVector12 = Blob.BlobType.jpeg ∧
       Blob.contentTypeFromBytes Blob.jpegVector12 = "image/jpeg" ∧
       Blob.supportsAnimationFromBytes Blob.jpegVector12 = false) := by
  decide

/-- C1 (amended).  For a Blob whose content starts with the 12-byte prefix
`FF D8 FF E0 00 10 4A 46 49 46 00 01` and is longer than 24 bytes,
`BlobType()` returns JPEG, `ContentType()` returns "image/jpeg" and
`SupportsAnimation()` returns false; for the bare 12-byte content the type
is Unknown while `ContentType()` is still "image/jpeg" (MIME fallback) and
`SupportsAnimation()` is still false. -/
theorem claim1_jpeg_sniff_amended (rest : List Nat)
    (h : 24 < 12 + rest.length) :
    Blob.blobTypeFromBytes (Blob.jpegVector12 ++ rest) = Blob.BlobType.jpeg ∧
    Blob.contentTypeFromBytes (Blob.jpegVector12 ++ rest) = "image/jpeg" ∧
    Blob.supportsAnimationFromBytes (Blob.jpegVector12 ++ rest) = false ∧
    Blob.blobTypeFromBytes Blob.jpegVector12 = Blob.BlobType.unknown ∧
    Blob.contentTypeFromBytes Blob.jpegVector12 = "image/jpeg" ∧
    Blob.supportsAnimationFromBytes Blob.jpegVector12 = false := by
  have hjpeg : Blob.blobTypeFromBytes (Blob.jpegVector12 ++ rest) =
      Blob.BlobType.jpeg := by
    apply Blob.blobTypeFromBytes_jpeg
    · simp [Blob.jpegVector12]; omega
    · rw [List.take_append_of_le_length (by decide)]; decide
  refine ⟨hjpeg, ?_, ?_, by decide, by decide, by decide⟩
  · rw [Blob.contentTypeFromBytes_eq, hjpeg]; rfl
  · unfold Blob.supportsAnimationFromBytes
    rw [hjpeg]; decide

/-- C1 witness: the amended statement evaluated on the 12-byte prefix
padded with 13 zero bytes. -/
theorem claim1_jpeg_sniff_witness :
    24 < 12 + (List.replicate 13 0).length ∧
    Blob.blobTypeFromBytes (Blob.jpegVector12 ++ List.replicate 13 0) =
      Blob.BlobType.jpeg :=
  ⟨by decide, (claim1_jpeg_sniff_amended (List.replicate 13 0) (by decide)).1⟩

/-- C2.  The claim expects `BlobType = AVIF` for a 24-byte content with
`[4..8) = "ftyp"` and `[8..12) = "avif"`, but the guard in `Blob.init`
demands strictly more than 24 sniffed bytes, so such a blob stays
Unknown. -/
theorem claim2_avif_counterexample :
    Blob.avifVector24.length = 24 ∧
    Blob.slice Blob.avifVector24 4 8 = Blob.ftyp ∧
    Blob.slice Blob.avifVector24 8 12 = Blob.avif ∧
    Blob.blobTypeFromBytes Blob.avifVector24 ≠ Blob.BlobType.avif := by
  decide

/-- C2 (amended).  Magic-number classification reads only the first bytes
of the sniffed prefix but applies only when more than 24 bytes are
available: for any Blob whose content has at least 25 bytes, with bytes
`[4..8) = "ftyp"`, `[8..12) = "avif"`, and a head that matches none of the
earlier JPEG/PNG/GIF signatures, `BlobType()` returns AVIF. -/
theorem claim2_avif_detection_amended (content : List Nat)
    (h24 : 24 < content.length)
    (hftyp : Blob.slice content 4 8 = Blob.ftyp)
    (havif : Blob.slice content 8 12 = Blob.avif)
    (hjpeg : content.take 3 ≠ Blob.jpegHeader)
    (hpng : content.take 4 ≠ Blob.pngHeader)
    (hgif : content.take 3 ≠ Blob.gifHeader) :
    Blob.blobTypeFromBytes content = Blob.BlobType.avif := by
  rw [Blob.blobTypeFromBytes_eq_classify content (by omega)]
  have hs : ∀ lo hi, hi ≤ 512 →
      Blob.slice (content.take 512) lo hi = Blob.slice content lo hi :=
    fun lo hi h => Blob.slice_take512 content lo hi h
  unfold Blob.classify
  rw [if_pos ⟨by decide, by decide, by rw [List.length_take]; omega⟩]
  rw [if_neg (by rw [hs 0 3 (by omega), Blob.slice_zero_eq_take]; exact hjpeg)]
  rw [if_neg (by rw [hs 0 4 (by omega), Blob.slice_zero_eq_take]; exact hpng)]
  rw [if_neg (by rw [hs 0 3 (by omega), Blob.slice_zero_eq_take]; exact hgif)]
  rw [if_neg (by rw [hs 8 12 (by omega), havif]; decide)]
  rw [if_pos ⟨by rw [hs 4 8 (by omega)]; exact hftyp,
    by rw [hs 8 12 (by omega)]; exact havif⟩]

/-- C2 witness: the amended statement evaluated on the 24-byte AVIF vector
padded with one extra byte. -/
theorem claim2_avif_detection_witness :
    24 < (Blob.avifVector24 ++ [0]).length ∧
    Blob.blobTypeFromBytes (Blob.avifVector24 ++ [0]) = Blob.BlobType.avif :=
  ⟨by decide,
    claim2_avif_detection_amended (Blob.avifVector24 ++ [0]) (by decide)
      (by decide) (by decide) (by decide) (by decide) (by decide)⟩

/-- C4.  For every byte vector `b`, building a Blob with
`NewBlobFromBytes b` and calling `ReadAll()` returns exactly `b` with no
error: the Empty branch returns the nil slice and nil error for `b = []`,
and otherwise the peek reader restores the whole content. -/
theorem claim4_readall_roundtrip (b : List Nat) :
    Blob.readAllFromBytes b = (b, none) := by
  cases b with
  | nil => decide
  | cons x xs =>
      unfold Blob.readAllFromBytes
      rw [if_neg]
      show Blob.blobTypeFromBytes (x :: xs) ≠ Blob.BlobType.empty
      rw [Blob.blobTypeFromBytes_eq_classify (x :: xs) (by simp)]
      exact Blob.classify_ne_empty _ _ (by decide)

/-- C5.  `NewReadSeeker()` fails with "method not allowed" exactly when
the first reader is not natively seekable and fan-out memoization is
unavailable — fan-out disabled, or declared size 0, or size at least
100 MiB, or an opener error; otherwise (absent an opener error) it
succeeds, natively when the reader seeks, and through the fan-out buffer
when fan-out is permitted and `0 < size < 100 MiB`.  Stated for a blob
with no construction error whose opener exists and returned a reader. -/
theorem claim5_new_read_seeker (openerErr readerSeekable fanout : Bool)
    (size : Int) (hsz : 0 ≤ size) :
    (Blob.newReadSeeker false true openerErr false readerSeekable fanout size
        = Blob.SeekerResult.methodNotAllowed ↔
      readerSeekable = false ∧
        (fanout = false ∨ size = 0 ∨ Blob.maxMemorySize ≤ size ∨
          openerErr = true)) ∧
    (readerSeekable = true → openerErr = false →
      Blob.newReadSeeker false true openerErr false readerSeekable fanout size
        = Blob.SeekerResult.ok Blob.SeekerWiring.native) ∧
    (readerSeekable = false → fanout = true → 0 < size →
      size < Blob.maxMemorySize → openerErr = false →
      Blob.newReadSeeker false true openerErr false readerSeekable fanout size
        = Blob.SeekerResult.ok Blob.SeekerWiring.fanoutBuf) := by
  unfold Blob.newReadSeeker Blob.initSeekerWiring
  cases readerSeekable <;> cases fanout <;> cases openerErr <;>
    simp [Blob.maxMemorySize] <;> split_ifs <;> simp_all <;> omega

/-- C5 witness: a non-seekable reader with fan-out enabled but declared
size 0 is refused with "method not allowed". -/
theorem claim5_new_read_seeker_witness :
    Blob.newReadSeeker false true false false false true 0
      = Blob.SeekerResult.methodNotAllowed :=
  ((claim5_new_read_seeker false false true 0 (by decide)).1).mpr
    (by exact ⟨rfl, Or.inr (Or.inl rfl)⟩)

/-- C3.  Fan-out equality: over any interleaving of producer iterations,
registrations, closes and reads on a fan-out built from a well-behaved
source with declared size `declared`, any consumer whose `Read` reaches
`io.EOF` (so it was never closed before end-of-stream) has read, in
concatenation, exactly the source bytes truncated to the declared size —
hence any two such consumers read identical byte sequences. -/
theorem claim3_fanout_equality (orig : List (List Nat × Fanout.SrcSig))
    (declared : Nat) (evs : List Fanout.Ev) (s s' : Fanout.Sys) (i m : Nat)
    (out : Fanout.ReadOut) (rd : Fanout.FReader)
    (hrun : Fanout.run (Fanout.initSys orig declared) evs = some s)
    (hwf : Fanout.wfSrc orig = true)
    (hread : Fanout.readStep s i m = some (s', out))
    (herr : out.err = some Fanout.RErr.eof)
    (hrd : s.fan.readers.get? i = some rd) :
    rd.consumed = (Fanout.flattenSrc orig).take declared := by
  have hInv := Fanout.sysInv_run orig declared evs _ s hrun
    (Fanout.sysInv_init orig declared)
  obtain ⟨hlen, hcs, hsd, hbuf, hdone, hT, hreaders⟩ := hInv
  obtain ⟨rd0, hrd0, hcase⟩ := Fanout.readStep_cases s i m s' out hread
  have hrdeq : rd0 = rd := Option.some.inj (hrd0.symm.trans hrd)
  subst hrdeq
  obtain ⟨hB, hA, hC⟩ := hreaders rd0 (List.get?_mem hrd0)
  have hfinish : rd0.consumed = s.fan.buf → s.fan.current = s.fan.size →
      rd0.consumed = (Fanout.flattenSrc orig).take declared := by
    intro h1 h2
    rcases hT with hTd | ⟨hTeq, hTw⟩
    · rw [h1, hbuf, h2, hTd]
    · have hbo := hTw hwf
      rw [h1, hbo]
      refine (List.take_of_length_le ?_).symm
      have hfl : (Fanout.flattenSrc orig).length = s.fan.buf.length := by
        rw [hbo]
      omega
  rcases hcase with ⟨hrc, rfl, houts⟩ | ⟨hrc, hrep, houts, rfl⟩ |
    ⟨hrc, hrep, rd2, hloop, rfl⟩
  · rw [houts] at herr
    simp at herr
  · rw [houts] at herr
    simp at herr
  · rcases Fanout.readLoop_cases _ _ _ _ _ _ _ hloop with
      ⟨hsz, heq2, hout⟩ | ⟨hlt, hC2, heq2, hout⟩ |
      ⟨code, hlt, hC2, herr2, heq2, hout⟩ | ⟨hlt, hclosedF, herrN, hcopy⟩
    · -- the EOF read: the consumer had already consumed the full buffer
      by_cases hcc : rd0.channelClosed = true
      · rcases hC hcc with hrc1 | ⟨hconsbuf, hcursz, -, -⟩
        · rw [hrc] at hrc1
          exact absurd hrc1 (by simp)
        · exact hfinish hconsbuf hcursz
      · have hccf : rd0.channelClosed = false := by simpa using hcc
        have hAold : rd0.consumed ++ (rd0.rbuf ++ rd0.queue.flatten)
            = s.fan.buf := by
          have := hA hccf
          rw [hrep] at this
          simpa using this
        have hclen : rd0.consumed.length = rd0.rcurrent := by
          rw [hB, hrep]
          simp
        obtain ⟨hconsbuf, -⟩ :=
          Fanout.append_eq_of_length_le _ _ _ hAold (by omega)
        have hcursz : s.fan.current = s.fan.size := by
          have h1 : rd0.consumed.length = s.fan.buf.length := by
            rw [hconsbuf]
          omega
        exact hfinish hconsbuf hcursz
    · rw [hout] at herr
      simp at herr
    · rw [hout] at herr
      simp at herr
    · obtain ⟨hoerr, -⟩ := Fanout.copyChunks_spec s.fan.size (m + 1) m rd0 []
        rd2 out hcopy hlt
      rw [hoerr] at herr
      simp at herr

/-- C3 witness: the theorem applied to a two-chunk source of four bytes,
declared size 4, with one consumer registered up front that drains the
stream and then reads end-of-stream. -/
theorem claim3_fanout_equality_witness :
    Fanout.wfSrc [([1, 2], Fanout.SrcSig.ok), ([3, 4], Fanout.SrcSig.ok)]
        = true ∧
    ({ replay := [], rcurrent := 4, rbuf := [], queue := [],
       channelClosed := true, readerClosed := false, cap := 1,
       consumed := [1, 2, 3, 4] } : Fanout.FReader).consumed =
      (Fanout.flattenSrc
        [([1, 2], Fanout.SrcSig.ok), ([3, 4], Fanout.SrcSig.ok)]).take 4 :=
  ⟨by decide,
    claim3_fanout_equality
      [([1, 2], Fanout.SrcSig.ok), ([3, 4], Fanout.SrcSig.ok)] 4
      [Fanout.Ev.register, Fanout.Ev.prod, Fanout.Ev.prod, Fanout.Ev.read 0 10]
      { fan := { size := 4, current := 4, buf := [1, 2, 3, 4], err := none,
                 readers := [{ replay := [], rcurrent := 4, rbuf := [],
                               queue := [], channelClosed := true,
                               readerClosed := false, cap := 1,
                               consumed := [1, 2, 3, 4] }],
                 prodDone := true }
        src := [] }
      { fan := { size := 4, current := 4, buf := [1, 2, 3, 4], err := none,
                 readers := [{ replay := [], rcurrent := 4, rbuf := [],
                               queue := [], channelClosed := true,
                               readerClosed := false, cap := 1,
                               consumed := [1, 2, 3, 4] }],
                 prodDone := true }
        src := [] }
      0 10 ⟨[], some Fanout.RErr.eof⟩
      { replay := [], rcurrent := 4, rbuf := [], queue := [],
        channelClosed := true, readerClosed := false, cap := 1,
        consumed := [1, 2, 3, 4] }
      (by decide) (by decide) (by decide) (by decide) (by decide)⟩

/-- C7.  The claim says a consumer first reads all `k` already-broadcast
bytes and only then receives the latched error.  Counterexample: a source
that delivers one byte and then one more byte together with a non-EOF
failure (code 7).  After the producer finishes, `k = 2` bytes were
broadcast into the consumer's channel, yet the consumer's very first
`Read` returns the latched error with zero bytes delivered — `Read`
checks the latched error before draining the channel queue. -/
theorem claim7_latched_error_counterexample :
    ((Fanout.run (Fanout.initSys
          [([1], Fanout.SrcSig.ok), ([2], Fanout.SrcSig.fail 7)] 4)
        [Fanout.Ev.register, Fanout.Ev.prod, Fanout.Ev.prod]).bind
      fun s => (Fanout.readStep s 0 10).map
        fun r => (s.fan.buf, s.fan.readers.map Fanout.FReader.consumed, r.2))
      = some ([1, 2], [[]], ⟨[], some (Fanout.RErr.latched 7)⟩) := by
  decide

/-- C7 (amended).  When the source fails with a non-EOF error `E` after
delivering some bytes, `E` is latched, and a consumer receives `E` only
from a `Read` made after its registration-time replay snapshot was fully
delivered; that `Read` returns the latched error with zero bytes and
closes the reader — broadcast chunks still queued on its channel are
discarded rather than drained first. -/
theorem claim7_latched_error_amended (s s' : Fanout.Sys) (i m : Nat)
    (out : Fanout.ReadOut) (c : Nat) (rd : Fanout.FReader)
    (hread : Fanout.readStep s i m = some (s', out))
    (herr : out.err = some (Fanout.RErr.latched c))
    (hrd : s.fan.readers.get? i = some rd) :
    s.fan.err = some c ∧ out.bytes = [] ∧ rd.replay = [] ∧
    ∃ rd2, s'.fan.readers.get? i = some rd2 ∧ rd2.readerClosed = true ∧
      rd2.channelClosed = true ∧ rd2.consumed = rd.consumed := by
  obtain ⟨rd0, hrd0, hcase⟩ := Fanout.readStep_cases s i m s' out hread
  have hrdeq : rd0 = rd := Option.some.inj (hrd0.symm.trans hrd)
  subst hrdeq
  rcases hcase with ⟨hrc, rfl, houts⟩ | ⟨hrc, hrep, houts, rfl⟩ |
    ⟨hrc, hrep, rd2, hloop, rfl⟩
  · rw [houts] at herr
    simp at herr
  · rw [houts] at herr
    simp at herr
  · rcases Fanout.readLoop_cases _ _ _ _ _ _ _ hloop with
      ⟨hsz, heq2, hout⟩ | ⟨hlt, hC2, heq2, hout⟩ |
      ⟨code, hlt, hC2, herr2, heq2, hout⟩ | ⟨hlt, hclosedF, herrN, hcopy⟩
    · rw [hout] at herr
      simp at herr
    · rw [hout] at herr
      simp at herr
    · have hcode : code = c := by
        rw [hout] at herr
        simpa using herr
      subst hcode
      subst heq2
      refine ⟨herr2, by rw [hout], hrep,
        ⟨{ replay := rd0.replay, rcurrent := rd0.rcurrent, rbuf := rd0.rbuf,
           queue := rd0.queue, channelClosed := true, readerClosed := true,
           cap := rd0.cap, consumed := rd0.consumed ++ out.bytes },
          ?_, rfl, rfl, by rw [hout]; simp⟩⟩
      have hilt : i < s.fan.readers.length := by
        have := List.get?_eq_some.mp hrd0
        exact this.choose
      exact List.get?_set_eq_of_lt _ hilt
    · obtain ⟨hoerr, -⟩ := Fanout.copyChunks_spec s.fan.size (m + 1) m rd0 []
        rd2 out hcopy hlt
      rw [hoerr] at herr
      simp at herr

/-- C6.  After `Close` on consumer `i`: along any further interleaving
every subsequent `Read` on `i` returns `io.ErrClosedPipe` and changes
nothing; a second `Close` is a no-op (the channel is not closed twice);
and the `Close` leaves the producer state (size, cursor, buffer, latched
error, termination, pending source) and every other reader untouched —
along any continuation that does not act on `i`, any other consumer's
`Read` returns exactly the same bytes and error as without the `Close`. -/
theorem claim6_close_semantics (s : Fanout.Sys) (i : Nat)
    (rd : Fanout.FReader) (hrd : s.fan.readers.get? i = some rd) :
    (∀ (evs : List Fanout.Ev) (s' : Fanout.Sys) (m : Nat),
      Fanout.run (Fanout.closeStep s i true).1 evs = some s' →
      Fanout.readStep s' i m
        = some (s', ⟨[], some Fanout.RErr.closedPipe⟩)) ∧
    Fanout.closeStep (Fanout.closeStep s i true).1 i true
      = Fanout.closeStep s i true ∧
    Fanout.AgreeExcept i s (Fanout.closeStep s i true).1 ∧
    (∀ (evs : List Fanout.Ev),
      (∀ ev ∈ evs, Fanout.AvoidsReader i ev = true) →
      ∀ (s1 t1 : Fanout.Sys), Fanout.run s evs = some s1 →
      Fanout.run (Fanout.closeStep s i true).1 evs = some t1 →
      ∀ (j m : Nat), j ≠ i →
      ∀ (s2 t2 : Fanout.Sys) (out1 out2 : Fanout.ReadOut),
      Fanout.readStep s1 j m = some (s2, out1) →
      Fanout.readStep t1 j m = some (t2, out2) → out1 = out2) := by
  refine ⟨?_, Fanout.closeStep_idem s i, Fanout.agree_closeSelf i s, ?_⟩
  · intro evs s' m hrun
    obtain ⟨rd1, hrd1, hc1⟩ := Fanout.closeStep_state s i rd hrd
    obtain ⟨rd2, hrd2, hc2⟩ :=
      Fanout.readerClosed_run evs _ s' hrun i rd1 hrd1 hc1
    exact Fanout.readStep_of_closed s' i m rd2 hrd2 hc2
  · intro evs hav s1 t1 hrs hrt j m hj s2 t2 out1 out2 h1 h2
    have hagree := Fanout.agree_run i evs s (Fanout.closeStep s i true).1
      s1 t1 hav (Fanout.agree_closeSelf i s) hrs hrt
    exact (Fanout.agree_readStep i j m s1 t1 hj hagree
      s2 t2 out1 out2 h1 h2).1

/-- C6 witness: one consumer is registered and closed; after a further
producer step its `Read` still reports the closed pipe. -/
theorem claim6_close_semantics_witness :
    Fanout.readStep
      { fan := { size := 4, current := 2, buf := [1, 2], err := none,
                 readers := [{ replay := [], rcurrent := 0, rbuf := [],
                               queue := [], channelClosed := true,
                               readerClosed := true, cap := 1,
                               consumed := [] }],
                 prodDone := false }
        src := [([3, 4], Fanout.SrcSig.ok)] } 0 5
      = some
        ({ fan := { size := 4, current := 2, buf := [1, 2], err := none,
                    readers := [{ replay := [], rcurrent := 0, rbuf := [],
                                  queue := [], channelClosed := true,
                                  readerClosed := true, cap := 1,
                                  consumed := [] }],
                    prodDone := false }
           src := [([3, 4], Fanout.SrcSig.ok)] },
          ⟨[], some Fanout.RErr.closedPipe⟩) :=
  (claim6_close_semantics
    { fan := { size := 4, current := 0, buf := [], err := none,
               readers := [{ replay := [], rcurrent := 0, rbuf := [],
                             queue := [], channelClosed := false,
                             readerClosed := false, cap := 1,
                             consumed := [] }],
               prodDone := false }
      src := [([1, 2], Fanout.SrcSig.ok), ([3, 4], Fanout.SrcSig.ok)] }
    0
    { replay := [], rcurrent := 0, rbuf := [], queue := [],
      channelClosed := false, readerClosed := false, cap := 1,
      consumed := [] }
    (by decide)).1
    [Fanout.Ev.prod]
    { fan := { size := 4, current := 2, buf := [1, 2], err := none,
               readers := [{ replay := [], rcurrent := 0, rbuf := [],
                             queue := [], channelClosed := true,
                             readerClosed := true, cap := 1,
                             consumed := [] }],
               prodDone := false }
      src := [([3, 4], Fanout.SrcSig.ok)] }
    5 (by decide)

/-- C7 witness: the amended statement applied to the error trace of the
counterexample. -/
theorem claim7_latched_error_witness :
    ({ fan := { size := 4, current := 2, buf := [1, 2], err := some 7,
                readers := [{ replay := [], rcurrent := 0, rbuf := [],
                              queue := [[1], [2]], channelClosed := false,
                              readerClosed := false, cap := 1,
                              consumed := [] }],
                prodDone := true }
       src := [] } : Fanout.Sys).fan.err = some 7 ∧
    (⟨[], some (Fanout.RErr.latched 7)⟩ : Fanout.ReadOut).bytes = [] :=
  have h := claim7_latched_error_amended
    { fan := { size := 4, current := 2, buf := [1, 2], err := some 7,
               readers := [{ replay := [], rcurrent := 0, rbuf := [],
                             queue := [[1], [2]], channelClosed := false,
                             readerClosed := false, cap := 1,
                             consumed := [] }],
               prodDone := true }
      src := [] }
    { fan := { size := 4, current := 2, buf := [1, 2], err := some 7,
               readers := [{ replay := [], rcurrent := 0, rbuf := [],
                             queue := [[1], [2]], channelClosed := true,
                             readerClosed := true, cap := 1,
                             consumed := [] }],
               prodDone := true }
      src := [] }
    0 10 ⟨[], some (Fanout.RErr.latched 7)⟩ 7
    { replay := [], rcurrent := 0, rbuf := [], queue := [[1], [2]],
      channelClosed := false, readerClosed := false, cap := 1,
      consumed := [] }
    (by decide) (by decide) (by decide)
  ⟨h.1, h.2.1⟩

/-- C8.  `Fanout.NewReader` appends exactly one reader whose channel is
allocated with buffer capacity `size/4096+1` — one slot per 4 KiB of the
fan-out's size field, which `New` initializes to the declared size. -/
theorem claim8_channel_capacity (s : Fanout.Sys)
    (src : List (List Nat × Fanout.SrcSig)) (n : Nat) :
    ((Fanout.registerStep s).fan.readers.getLast?.map Fanout.FReader.cap
        = some (s.fan.size / 4096 + 1)) ∧
    (Fanout.registerStep s).fan.readers.length = s.fan.readers.length + 1 ∧
    (Fanout.registerStep s).fan.readers.take s.fan.readers.length
      = s.fan.readers ∧
    (Fanout.initSys src n).fan.size = n := by
  unfold Fanout.registerStep Fanout.initSys
  refine ⟨?_, by simp, ?_, rfl⟩
  · rw [show ∀ l x, List.getLast? (l ++ [x]) = some x from
      fun l x => List.getLast?_concat l]
    rfl
  · exact List.take_left _ _

/-- C9.  Deferred functions d₁…dₙ registered in order on a request scope
are invoked at scope end exactly in registration order, and a further
firing of the scope invokes nothing (so each runs exactly once). -/
theorem claim9_defer_order (parent : Ctx.Context) (ds : List Nat) :
    (Ctx.scopeEnd (Ctx.deferAll (Ctx.withContext parent) ds)).1 = ds ∧
    (Ctx.scopeEnd
      ((Ctx.scopeEnd (Ctx.deferAll (Ctx.withContext parent) ds)).2)).1 = [] := by
  have h : Ctx.withContext parent = some Ctx.emptyRef := rfl
  rw [h, Ctx.deferAll_some]
  simp [Ctx.scopeEnd, Ctx.refCall, Ctx.emptyRef]

/-- C10.  On a context without an imagor request scope, `ContextCachePut`
is a silent no-op, `ContextCacheGet` returns `(nil, false)`, and `Defer`
panics with "not imagor context"; on a `WithContext`-derived context a
value stored under key `k` is returned by a subsequent get. -/
theorem claim10_context_cache (parent : Ctx.Context) (k v fn : Nat) :
    Ctx.contextCachePut none k v = none ∧
    Ctx.contextCacheGet (none : Ctx.Context) k = (none, false) ∧
    Ctx.ctxDefer none fn = Except.error "not imagor context" ∧
    Ctx.contextCacheGet (Ctx.contextCachePut (Ctx.withContext parent) k v) k
      = (some v, true) := by
  refine ⟨rfl, rfl, rfl, ?_⟩
  simp [Ctx.withContext, Ctx.contextCachePut, Ctx.contextCacheGet,
    Ctx.emptyRef, Ctx.mapStore, Ctx.mapLoad]

end Imagor
